import Mathlib

/-!
Shallow embedding of the Ready Trader Go autotrader (autotrader.cc together
with its header).  Machine integers are modelled as `Nat`/`Int` with explicit
reductions modulo `2 ^ 64` (`unsigned long`) and `2 ^ 32` (`unsigned int`)
exactly where the C++ code converts or overflows.  The `std::set` of prices is
an ascending duplicate-free `List Nat`; the two `std::unordered_map`s per side
are association lists whose entries share the same `Order` values, mirroring
the shared `Order*` pointers of the source.  Real time (the rolling message
window) is factored out: the message-frequency tracker's rolling count after
lazy expiry is a parameter, and the order-book handler takes the value
returned by `GetNonCancelMessagesAllowed` as its budget argument, exactly as
the C++ handler obtains it once at the start of the pass.
-/

namespace RTG

/-- Reduction modulo 2^64: the value an `unsigned long` expression takes. -/
def wrap64 (n : Int) : Nat := (n % 18446744073709551616).toNat

/-- Reduction modulo 2^32: the value an `unsigned int` expression takes. -/
def wrap32 (n : Nat) : Nat := n % 4294967296

/-- Conversion of an unsigned 64-bit value to a signed 32-bit `int`
(two's complement truncation, as performed by the `(int)` cast). -/
def toInt32 (n : Nat) : Int :=
  if n % 4294967296 < 2147483648 then ((n % 4294967296 : Nat) : Int)
  else ((n % 4294967296 : Nat) : Int) - 4294967296

/-- Constant `LOT_SIZE` from autotrader.h. -/
def LOT_SIZE : Nat := 10

/-- Constant `POSITION_LIMIT` from autotrader.h (used in signed arithmetic). -/
def POSITION_LIMIT : Int := 100

/-- Constant `TICK_SIZE_IN_CENTS` from autotrader.h. -/
def TICK_SIZE_IN_CENTS : Nat := 100

/-- Constant `NUM_CLONES` from autotrader.h (ladder depth). -/
def NUM_CLONES : Nat := 3

/-- Constant `ADDITIONAL_SPREAD = 1 * TICK_SIZE_IN_CENTS` from autotrader.h. -/
def ADDITIONAL_SPREAD : Nat := 1 * TICK_SIZE_IN_CENTS

/-- Constant `MAX_MESSAGE_FREQ` from autotrader.h. -/
def MAX_MESSAGE_FREQ : Nat := 50

/-- Modelled from the spec: the framework constant `ReadyTraderGo::MINIMUM_BID`
(the venue's minimal representable bid) is not part of this repository; the
spec only requires the hedge price built from it to be extreme and
guaranteed to cross. -/
def MINIMUM_BID : Nat := 1

/-- Modelled from the spec: the framework constant `ReadyTraderGo::MAXIMUM_ASK`
(the venue's maximal representable ask) is not part of this repository; the
spec only requires the hedge price built from it to be extreme and
guaranteed to cross. -/
def MAXIMUM_ASK : Nat := 2147483647

/-- Constant `MIN_BID_NEAREST_TICK` from autotrader.h. -/
def MIN_BID_NEAREST_TICK : Nat :=
  (MINIMUM_BID + TICK_SIZE_IN_CENTS) / TICK_SIZE_IN_CENTS * TICK_SIZE_IN_CENTS

/-- Constant `MAX_ASK_NEAREST_TICK` from autotrader.h. -/
def MAX_ASK_NEAREST_TICK : Nat :=
  MAXIMUM_ASK / TICK_SIZE_IN_CENTS * TICK_SIZE_IN_CENTS

/-- The `Order` record from autotrader.h: price, remaining volume, order id. -/
structure Order where
  price : Nat
  volume : Nat
  orderId : Nat
deriving Repr, DecidableEq

/-- Association list standing for one of the `std::unordered_map<unsigned long, Order*>`
members; the mapped `Order` values play the role of the pointed-to objects. -/
abbrev AssocMap := List (Nat × Order)

/-- Lookup in an association list (`unordered_map::find` / `count`-then-`operator[]`). -/
def mfind : AssocMap → Nat → Option Order
  | [], _ => none
  | (k, v) :: rest, key => if key = k then some v else mfind rest key

/-- Key-membership test, the `count(key) == 1` idiom of the source. -/
def mcontains (m : AssocMap) (k : Nat) : Bool := (mfind m k).isSome

/-- Store through `operator[]`: replace the entry at the key, or append one. -/
def minsert : AssocMap → Nat → Order → AssocMap
  | [], k, v => [(k, v)]
  | (k1, v1) :: rest, k, v =>
    if k = k1 then (k, v) :: rest else (k1, v1) :: minsert rest k v

/-- Removal by key (`unordered_map::erase`). -/
def merase : AssocMap → Nat → AssocMap
  | [], _ => []
  | (k1, v1) :: rest, k => if k = k1 then rest else (k1, v1) :: merase rest k

/-- Keys of an association list. -/
def mkeys (m : AssocMap) : List Nat := m.map Prod.fst

/-- Values of an association list. -/
def mvals (m : AssocMap) : List Order := m.map Prod.snd

/-- Ordered insertion into the ascending price list (`std::set::emplace`). -/
def setInsert : List Nat → Nat → List Nat
  | [], x => [x]
  | y :: ys, x =>
    if x < y then x :: y :: ys
    else if x = y then y :: ys
    else y :: setInsert ys x

/-- One side's three co-indexed registry views: `mBidPrices`/`mAskPrices`,
`mBidToOrder`/`mAskToOrder` and `mBidOrderIdToOrder`/`mAskOrderIdToOrder`. -/
structure SideBook where
  prices : List Nat
  toOrder : AssocMap
  idToOrder : AssocMap
deriving Repr, DecidableEq

/-- The mutable fields of `AutoTrader` that the embedded handlers touch. -/
structure TraderState where
  nextMessageId : Nat
  position : Int
  bid : SideBook
  ask : SideBook
deriving Repr, DecidableEq

/-- Order side (`ReadyTraderGo::Side`). -/
inductive Side where
  | BUY
  | SELL
deriving Repr, DecidableEq

/-- Instrument (`ReadyTraderGo::Instrument`); `FUT` is `FUTURE`. -/
inductive Instrument where
  | FUTURE
  | ETF
deriving Repr, DecidableEq

/-- Outbound commands the trader emits (`SendInsertOrder`, `SendCancelOrder`,
`SendHedgeOrder`); logging-only traffic is not modelled. -/
inductive Command where
  | insertOrder (clientOrderId : Nat) (side : Side) (price : Nat) (volume : Nat)
  | cancelOrder (clientOrderId : Nat)
  | hedgeOrder (clientOrderId : Nat) (side : Side) (price : Nat) (volume : Nat)
deriving Repr, DecidableEq

/-- Add one order to all three views of a side
(the `emplace` / two `operator[]` stores of the insertion loops). -/
def SideBook.addOrder (b : SideBook) (o : Order) : SideBook :=
  { prices := setInsert b.prices o.price
    toOrder := minsert b.toOrder o.price o
    idToOrder := minsert b.idToOrder o.orderId o }

/-- Remove the order with the given id from all three views
(the zero-remaining-volume branch of `OrderStatusMessageHandler`). -/
def SideBook.removeById (b : SideBook) (clientOrderId : Nat) : SideBook :=
  match mfind b.idToOrder clientOrderId with
  | none => b
  | some o =>
    { prices := b.prices.erase o.price
      toOrder := merase b.toOrder o.price
      idToOrder := merase b.idToOrder clientOrderId }

/-- Overwrite the remaining volume of the order with the given id.  The C++
code mutates the shared `Order` object through one pointer, so the entry seen
through the price map changes as well; the embedding updates both views. -/
def SideBook.setVolume (b : SideBook) (clientOrderId volume : Nat) : SideBook :=
  match mfind b.idToOrder clientOrderId with
  | none => b
  | some o =>
    { prices := b.prices
      toOrder := minsert b.toOrder o.price { o with volume := volume }
      idToOrder := minsert b.idToOrder clientOrderId { o with volume := volume } }

/-- `MessageFrequencyTracker::GetNonCancelMessagesAllowed` (autotrader.cc
lines 352-367), applied to the rolling message count left after the lazy
expiry loop.  `freeMessages`, the subtraction and the division are
`unsigned long` arithmetic; the result goes through `std::max(0UL, ...)` and
an `(int)` cast. -/
def getNonCancelMessagesAllowed (rollingCount : Nat) : Int :=
  let safetyMargin : Nat := 0
  let maxOpenOrders : Nat := 2 * NUM_CLONES
  let freeMessages : Nat := wrap64 ((MAX_MESSAGE_FREQ : Int) - (rollingCount : Int))
  toInt32 (max 0 (wrap64 ((freeMessages : Int) - (maxOpenOrders : Int) - (safetyMargin : Int)) / 2))

/-- The budget formula as the specification words it: integer arithmetic,
floor division, clamped at zero. -/
def specNonCancelBudget (cap live reserved margin : Int) : Int :=
  max 0 ((cap - live - reserved - margin).fdiv 2)

/-- Round-half-away-from-zero of `n / 10`.  In autotrader.cc the skew is
`round(x * centsPerImbalancedShare)` with `centsPerImbalancedShare = 1.0 /
LOT_SIZE = 0.1` in `double` arithmetic; for every excess the strategy can
reach, the nearest double to `n * 0.1` lies on the same side of each
half-integer boundary as the exact value `n / 10`, so `round` agrees with
exact round-half-away-from-zero. -/
def roundTenths (n : Int) : Int :=
  if 0 ≤ n then ((n.toNat + 5) / 10 : Nat)
  else -(((-n).toNat + 5) / 10 : Nat)

/-- Constant `minPositionImbalance` from `OrderBookMessageHandler`. -/
def minPositionImbalance : Int := 50

/-- The inventory-skew adjustment in ticks (sign included):
`-(int)round((pos ∓ minPositionImbalance) * centsPerImbalancedShare)`
from autotrader.cc lines 98-103, zero inside the dead band. -/
def priceAdjustmentTicks (pos : Int) : Int :=
  if minPositionImbalance ≤ pos then -roundTenths (pos - minPositionImbalance)
  else if pos ≤ -minPositionImbalance then -roundTenths (pos + minPositionImbalance)
  else 0

/-- The skew adjustment as the `unsigned long priceAdjustment` variable holds
it after `priceAdjustment *= TICK_SIZE_IN_CENTS` (negative values wrap). -/
def priceAdjustmentRaw (pos : Int) : Nat :=
  wrap64 (priceAdjustmentTicks pos * (TICK_SIZE_IN_CENTS : Int))

/-- `frontBid` of the bid block: `bestBidFut + priceAdjustment -
ADDITIONAL_SPREAD` in `unsigned long` arithmetic, then
`std::min(frontBid, bestAskFut)`. -/
def frontBidPrice (bestBid bestAsk : Nat) (pos : Int) : Nat :=
  min (wrap64 ((bestBid : Int) + (priceAdjustmentRaw pos : Int) - (ADDITIONAL_SPREAD : Int))) bestAsk

/-- `frontAsk` of the ask block: `bestAskFut + priceAdjustment +
ADDITIONAL_SPREAD` in `unsigned long` arithmetic, then
`std::max(frontAsk, bestBidFut)`. -/
def frontAskPrice (bestBid bestAsk : Nat) (pos : Int) : Nat :=
  max (wrap64 ((bestAsk : Int) + (priceAdjustmentRaw pos : Int) + (ADDITIONAL_SPREAD : Int))) bestBid

/-- Order id named by the cancel in the arbitrage loops
(`mBidToOrder[price]->orderId`); on a consistent registry the lookup always
succeeds, the `0` default marks the states the C++ code would dereference
a null pointer on. -/
def orderIdAtPrice (m : AssocMap) (p : Nat) : Nat :=
  match mfind m p with
  | some o => o.orderId
  | none => 0

/-- Arbitrage cancellation of bid orders (autotrader.cc lines 75-82):
cancel every registered bid whose price exceeds the reference best ask. -/
def arbCancelBids (b : SideBook) (bestAsk : Nat) : List Command :=
  (b.prices.filter (fun p => bestAsk < p)).map
    (fun p => Command.cancelOrder (orderIdAtPrice b.toOrder p))

/-- Arbitrage cancellation of ask orders (autotrader.cc lines 84-91):
cancel every registered ask whose price is below the reference best bid. -/
def arbCancelAsks (a : SideBook) (bestBid : Nat) : List Command :=
  (a.prices.filter (fun p => p < bestBid)).map
    (fun p => Command.cancelOrder (orderIdAtPrice a.toOrder p))

/-- Bid-side reconciliation scan (autotrader.cc lines 116-144): walk the
registered prices in ascending order, cancel the ones outside the band
`(frontBid - NUM_CLONES ticks, frontBid]` (comparisons on the `unsigned int`
truncation of the stored price, against `unsigned long` band ends), and
subtract every resting order's volume from the size headroom. -/
def bidScanGo (b : SideBook) (front : Nat) :
    List Nat → List Command → Int → List Command × Int
  | [], cs, m => (cs, m)
  | p :: ps, cs, m =>
    match mfind b.toOrder p with
    | none => bidScanGo b front ps cs m
    | some o =>
      if front < wrap32 p ∨
          wrap32 p ≤ wrap64 ((front : Int) - (NUM_CLONES * TICK_SIZE_IN_CENTS : Nat)) then
        bidScanGo b front ps (cs ++ [Command.cancelOrder o.orderId]) (m - (o.volume : Int))
      else
        bidScanGo b front ps cs (m - (o.volume : Int))

/-- Ask-side reconciliation scan (autotrader.cc lines 169-197), the mirror
image with band `[frontAsk, frontAsk + NUM_CLONES ticks)`. -/
def askScanGo (b : SideBook) (front : Nat) :
    List Nat → List Command → Int → List Command × Int
  | [], cs, m => (cs, m)
  | p :: ps, cs, m =>
    match mfind b.toOrder p with
    | none => askScanGo b front ps cs m
    | some o =>
      if wrap32 p < front ∨
          wrap64 ((front : Int) + (NUM_CLONES * TICK_SIZE_IN_CENTS : Nat)) ≤ wrap32 p then
        askScanGo b front ps (cs ++ [Command.cancelOrder o.orderId]) (m - (o.volume : Int))
      else
        askScanGo b front ps cs (m - (o.volume : Int))

/-- Ladder price for a bid offset: `unsigned int price = frontBid - offset *
TICK_SIZE_IN_CENTS` (64-bit wrap, then 32-bit truncation). -/
def ladderPriceBid (front offset : Nat) : Nat :=
  wrap32 (wrap64 ((front : Int) - (offset * TICK_SIZE_IN_CENTS : Nat)))

/-- Ladder price for an ask offset: `unsigned int price = frontAsk + offset *
TICK_SIZE_IN_CENTS`. -/
def ladderPriceAsk (front offset : Nat) : Nat :=
  wrap32 (wrap64 ((front : Int) + (offset * TICK_SIZE_IN_CENTS : Nat)))

/-- Running state of an insertion loop: the side's registry, `mNextMessageId`,
`maximumBidSize`/`maximumAskSize`, `numNewOrdersAllowed`, and the insert
commands emitted so far. -/
structure QuoteLoop where
  book : SideBook
  nextId : Nat
  maxSize : Int
  budget : Int
  cmds : List Command
deriving Repr, DecidableEq

/-- Bid insertion loop (autotrader.cc lines 145-158): for each offset while
headroom and budget remain, insert a lot-capped order at every ladder price
not already registered.  The assigned id is `unsigned int orderId =
mNextMessageId++` (line 149): the 64-bit counter advances, but the id stored
in the registries and sent with the insert is its 32-bit truncation. -/
def insertLoopBid (front : Nat) : List Nat → QuoteLoop → QuoteLoop
  | [], q => q
  | offset :: rest, q =>
    if 0 < q.maxSize ∧ 0 < q.budget then
      let price := ladderPriceBid front offset
      if price ∈ q.book.prices then insertLoopBid front rest q
      else
        let orderId := wrap32 q.nextId
        let volume := (min (LOT_SIZE : Int) q.maxSize).toNat
        insertLoopBid front rest
          { book := q.book.addOrder { price := price, volume := volume, orderId := orderId }
            nextId := q.nextId + 1
            maxSize := q.maxSize - (volume : Int)
            budget := q.budget - 1
            cmds := q.cmds ++ [Command.insertOrder orderId Side.BUY price volume] }
    else q

/-- Ask insertion loop (autotrader.cc lines 198-211), with the same
`unsigned int orderId = mNextMessageId++` truncation at line 202. -/
def insertLoopAsk (front : Nat) : List Nat → QuoteLoop → QuoteLoop
  | [], q => q
  | offset :: rest, q =>
    if 0 < q.maxSize ∧ 0 < q.budget then
      let price := ladderPriceAsk front offset
      if price ∈ q.book.prices then insertLoopAsk front rest q
      else
        let orderId := wrap32 q.nextId
        let volume := (min (LOT_SIZE : Int) q.maxSize).toNat
        insertLoopAsk front rest
          { book := q.book.addOrder { price := price, volume := volume, orderId := orderId }
            nextId := q.nextId + 1
            maxSize := q.maxSize - (volume : Int)
            budget := q.budget - 1
            cmds := q.cmds ++ [Command.insertOrder orderId Side.SELL price volume] }
    else q

/-- Result of the bid-side reconciliation scan, fed with the empty command
accumulator and `maximumBidSize = POSITION_LIMIT - mPosition`. -/
def bidScanResult (s : TraderState) (bestAsk bestBid : Nat) : List Command × Int :=
  bidScanGo s.bid (frontBidPrice bestBid bestAsk s.position) s.bid.prices []
    (POSITION_LIMIT - s.position)

/-- Result of the ask-side reconciliation scan, fed with the empty command
accumulator and `maximumAskSize = POSITION_LIMIT + mPosition`. -/
def askScanResult (s : TraderState) (bestAsk bestBid : Nat) : List Command × Int :=
  askScanGo s.ask (frontAskPrice bestBid bestAsk s.position) s.ask.prices []
    (POSITION_LIMIT + s.position)

/-- Result of the bid insertion loop, started from the scan's headroom. -/
def bidQuoteLoopResult (s : TraderState) (bestAsk bestBid : Nat) (budget : Int) : QuoteLoop :=
  insertLoopBid (frontBidPrice bestBid bestAsk s.position) (List.range NUM_CLONES)
    { book := s.bid, nextId := s.nextMessageId,
      maxSize := (bidScanResult s bestAsk bestBid).2, budget := budget, cmds := [] }

/-- Result of the ask insertion loop, started from the scan's headroom. -/
def askQuoteLoopResult (s : TraderState) (bestAsk bestBid : Nat) (budget : Int) : QuoteLoop :=
  insertLoopAsk (frontAskPrice bestBid bestAsk s.position) (List.range NUM_CLONES)
    { book := s.ask, nextId := s.nextMessageId,
      maxSize := (askScanResult s bestAsk bestBid).2, budget := budget, cmds := [] }

/-- Bid block of `OrderBookMessageHandler` (autotrader.cc lines 109-159):
guarded by a nonzero reference best bid, scan-and-cancel then fill ladder
gaps.  Returns the updated trader state, the commands sent by the block, and
the remaining non-cancel budget. -/
def adjustBidSide (s : TraderState) (bestAsk bestBid : Nat) (budget : Int) :
    TraderState × List Command × Int :=
  if bestBid ≠ 0 then
    let q := bidQuoteLoopResult s bestAsk bestBid budget
    ({ s with bid := q.book, nextMessageId := q.nextId },
     (bidScanResult s bestAsk bestBid).1 ++ q.cmds, q.budget)
  else (s, [], budget)

/-- Ask block of `OrderBookMessageHandler` (autotrader.cc lines 162-212),
with headroom `POSITION_LIMIT + mPosition`. -/
def adjustAskSide (s : TraderState) (bestAsk bestBid : Nat) (budget : Int) :
    TraderState × List Command × Int :=
  if bestAsk ≠ 0 then
    let q := askQuoteLoopResult s bestAsk bestBid budget
    ({ s with ask := q.book, nextMessageId := q.nextId },
     (askScanResult s bestAsk bestBid).1 ++ q.cmds, q.budget)
  else (s, [], budget)

/-- `AutoTrader::OrderBookMessageHandler` (autotrader.cc lines 58-224) on the
reference-instrument path.  `bestAsk`/`bestBid` are `askPrices[0]` and
`bidPrices[0]` of the snapshot (the volume entries are only logged); `budget`
is the value `GetNonCancelMessagesAllowed` returned for this pass.  Returns
the new state and the outbound commands in issuance order. -/
def orderBookMessageHandler (s : TraderState) (inst : Instrument)
    (bestAsk bestBid : Nat) (budget : Int) : TraderState × List Command :=
  if inst = Instrument.FUTURE then
    let arb := arbCancelBids s.bid bestAsk ++ arbCancelAsks s.ask bestBid
    let r1 := adjustBidSide s bestAsk bestBid budget
    let r2 := adjustAskSide r1.1 bestAsk bestBid r1.2.2
    (r2.1, arb ++ r1.2.1 ++ r2.2.1)
  else (s, [])

/-- `AutoTrader::OrderFilledMessageHandler` (autotrader.cc lines 226-242):
a fill on a registered bid adds to the position and hedges with an extreme
sell, anything else subtracts and hedges with an extreme buy. -/
def orderFilledMessageHandler (s : TraderState) (clientOrderId price volume : Nat) :
    TraderState × List Command :=
  if mcontains s.bid.idToOrder clientOrderId then
    ({ s with nextMessageId := s.nextMessageId + 1, position := s.position + (volume : Int) },
     [Command.hedgeOrder s.nextMessageId Side.SELL MIN_BID_NEAREST_TICK volume])
  else
    ({ s with nextMessageId := s.nextMessageId + 1, position := s.position - (volume : Int) },
     [Command.hedgeOrder s.nextMessageId Side.BUY MAX_ASK_NEAREST_TICK volume])

/-- `AutoTrader::OrderStatusMessageHandler` (autotrader.cc lines 244-282):
zero remaining volume removes the order from all three views of its side,
a nonzero remainder overwrites the shared record's volume, and an unknown id
is only logged. -/
def orderStatusMessageHandler (s : TraderState)
    (clientOrderId fillVolume remainingVolume : Nat) (fees : Int) : TraderState :=
  if mcontains s.bid.idToOrder clientOrderId then
    if remainingVolume = 0 then { s with bid := s.bid.removeById clientOrderId }
    else { s with bid := s.bid.setVolume clientOrderId remainingVolume }
  else if mcontains s.ask.idToOrder clientOrderId then
    if remainingVolume = 0 then { s with ask := s.ask.removeById clientOrderId }
    else { s with ask := s.ask.setVolume clientOrderId remainingVolume }
  else s

/-- `AutoTrader::ErrorMessageHandler` (autotrader.cc lines 40-48): an error
naming a nonzero registered order id is replayed as a terminal status update;
everything else is only logged. -/
def errorMessageHandler (s : TraderState) (clientOrderId : Nat) : TraderState :=
  if clientOrderId ≠ 0 ∧
      (mcontains s.ask.idToOrder clientOrderId ∨ mcontains s.bid.idToOrder clientOrderId) then
    orderStatusMessageHandler s clientOrderId 0 0 0
  else s

/-- Callbacks that mutate the registries or the position. -/
inductive Event where
  | orderBook (inst : Instrument) (bestAsk bestBid : Nat) (budget : Int)
  | orderFilled (clientOrderId price volume : Nat)
  | orderStatus (clientOrderId fillVolume remainingVolume : Nat) (fees : Int)
  | errorMessage (clientOrderId : Nat)
deriving Repr, DecidableEq

/-- State transition of a single callback. -/
def stepEvent (s : TraderState) : Event → TraderState
  | .orderBook inst bestAsk bestBid budget => (orderBookMessageHandler s inst bestAsk bestBid budget).1
  | .orderFilled id price volume => (orderFilledMessageHandler s id price volume).1
  | .orderStatus id fill rem fees => orderStatusMessageHandler s id fill rem fees
  | .errorMessage id => errorMessageHandler s id

/-- Replay of a callback sequence. -/
def runEvents (s : TraderState) (evs : List Event) : TraderState :=
  evs.foldl stepEvent s

/-- Construction-time state of `AutoTrader`: `mNextMessageId = 1`, flat
position, empty registries. -/
def initialState : TraderState :=
  { nextMessageId := 1
    position := 0
    bid := { prices := [], toOrder := [], idToOrder := [] }
    ask := { prices := [], toOrder := [], idToOrder := [] } }

/-- Consistency of one side's three views: the price list is strictly
ascending, both maps have duplicate-free keys bound to matching record
fields, the price list and the price map carry the same keys (all below
2^32, as every registered price originates from an `unsigned int`), and the
two maps hold the same order records. -/
def SideBook.consistent (b : SideBook) : Prop :=
  List.Pairwise (· < ·) b.prices ∧
  (mkeys b.toOrder).Nodup ∧
  (mkeys b.idToOrder).Nodup ∧
  (∀ e ∈ b.toOrder, (Prod.snd e).price = Prod.fst e) ∧
  (∀ e ∈ b.idToOrder, (Prod.snd e).orderId = Prod.fst e) ∧
  (∀ p ∈ b.prices, mcontains b.toOrder p = true) ∧
  (∀ e ∈ b.toOrder, Prod.fst e ∈ b.prices) ∧
  (∀ p ∈ b.prices, p < 4294967296) ∧
  (∀ e ∈ b.toOrder, Prod.snd e ∈ mvals b.idToOrder) ∧
  (∀ e ∈ b.idToOrder, Prod.snd e ∈ mvals b.toOrder)

/-- Global invariant: both sides consistent, all registered ids below
`mNextMessageId`, and no id registered on both sides. -/
def invariant (s : TraderState) : Prop :=
  s.bid.consistent ∧ s.ask.consistent ∧
  (∀ e ∈ s.bid.idToOrder, Prod.fst e < s.nextMessageId) ∧
  (∀ e ∈ s.ask.idToOrder, Prod.fst e < s.nextMessageId) ∧
  (∀ e ∈ s.bid.idToOrder, ∀ f ∈ s.ask.idToOrder, Prod.fst e ≠ Prod.fst f)

/-- The property claim C6 asks for: the three views of a side describe one
and the same set of live orders. -/
def sameOrderSet (b : SideBook) : Prop :=
  (∀ o, o ∈ mvals b.toOrder ↔ o ∈ mvals b.idToOrder) ∧
  (∀ p, p ∈ b.prices ↔ ∃ o ∈ mvals b.toOrder, o.price = p)

instance (b : SideBook) : Decidable b.consistent := by
  unfold SideBook.consistent
  infer_instance

instance (s : TraderState) : Decidable (invariant s) := by
  unfold invariant
  infer_instance



@[simp]
theorem mkeys_nil : mkeys [] = [] := rfl

@[simp]
theorem mkeys_cons (k : Nat) (v : Order) (m : AssocMap) :
    mkeys ((k, v) :: m) = k :: mkeys m := rfl

@[simp]
theorem mvals_nil : mvals [] = [] := rfl

@[simp]
theorem mvals_cons (k : Nat) (v : Order) (m : AssocMap) :
    mvals ((k, v) :: m) = v :: mvals m := rfl

theorem mfind_cons_self (k : Nat) (v : Order) (m : AssocMap) :
    mfind ((k, v) :: m) k = some v := by
  simp [mfind]

theorem mfind_cons_ne {key k : Nat} (v : Order) (m : AssocMap) (h : key ≠ k) :
    mfind ((k, v) :: m) key = mfind m key := by
  simp [mfind, h]

theorem minsert_cons_self (k : Nat) (v1 v : Order) (m : AssocMap) :
    minsert ((k, v1) :: m) k v = (k, v) :: m := by
  simp [minsert]

theorem minsert_cons_ne {k k1 : Nat} (v1 v : Order) (m : AssocMap) (h : k ≠ k1) :
    minsert ((k1, v1) :: m) k v = (k1, v1) :: minsert m k v := by
  simp [minsert, h]

theorem merase_cons_self (k : Nat) (v1 : Order) (m : AssocMap) :
    merase ((k, v1) :: m) k = m := by
  simp [merase]

theorem merase_cons_ne {k k1 : Nat} (v1 : Order) (m : AssocMap) (h : k ≠ k1) :
    merase ((k1, v1) :: m) k = (k1, v1) :: merase m k := by
  simp [merase, h]

theorem setInsert_cons_eq (x : Nat) (ys : List Nat) :
    setInsert (x :: ys) x = x :: ys := by
  simp [setInsert]

theorem mem_setInsert {l : List Nat} {x a : Nat} :
    a ∈ setInsert l x ↔ a = x ∨ a ∈ l := by
  induction l with
  | nil => simp [setInsert]
  | cons y ys ih =>
    by_cases h1 : x < y
    · simp [setInsert, h1]
    · by_cases h2 : x = y
      · subst h2
        rw [setInsert_cons_eq, List.mem_cons]
        tauto
      · simp only [setInsert, h1, h2, if_false, List.mem_cons, ih]
        tauto

theorem pairwise_setInsert {l : List Nat} {x : Nat}
    (h : List.Pairwise (· < ·) l) : List.Pairwise (· < ·) (setInsert l x) := by
  induction l with
  | nil => simp [setInsert]
  | cons y ys ih =>
    rcases List.pairwise_cons.1 h with ⟨hy, hys⟩
    by_cases h1 : x < y
    · simp only [setInsert, h1, if_true]
      refine List.pairwise_cons.2 ⟨?_, h⟩
      intro b hb
      rcases List.mem_cons.1 hb with rfl | hb
      · exact h1
      · exact h1.trans (hy _ hb)
    · by_cases h2 : x = y
      · subst h2
        rw [setInsert_cons_eq]
        exact h
      · have hyx : y < x := by omega
        simp only [setInsert, h1, h2, if_false]
        refine List.pairwise_cons.2 ⟨?_, ih hys⟩
        intro b hb
        rcases mem_setInsert.1 hb with rfl | hb
        · exact hyx
        · exact hy _ hb

theorem mfind_mem {m : AssocMap} {k : Nat} {v : Order}
    (h : mfind m k = some v) : (k, v) ∈ m := by
  induction m with
  | nil => simp [mfind] at h
  | cons e rest ih =>
    obtain ⟨k1, v1⟩ := e
    by_cases hk : k = k1
    · subst hk
      rw [mfind_cons_self, Option.some.injEq] at h
      exact h ▸ List.mem_cons_self _ _
    · rw [mfind_cons_ne _ _ hk] at h
      exact List.mem_cons_of_mem _ (ih h)

theorem mfind_eq_none {m : AssocMap} {k : Nat} :
    mfind m k = none ↔ k ∉ mkeys m := by
  induction m with
  | nil => simp [mfind]
  | cons e rest ih =>
    obtain ⟨k1, v1⟩ := e
    by_cases hk : k = k1
    · subst hk
      simp [mfind_cons_self]
    · rw [mfind_cons_ne _ _ hk, mkeys_cons]
      simp only [List.mem_cons, ih]
      tauto

theorem mem_keys_of_mem {m : AssocMap} {e : Nat × Order}
    (h : e ∈ m) : Prod.fst e ∈ mkeys m :=
  List.mem_map.2 ⟨e, h, rfl⟩

theorem mcontains_iff {m : AssocMap} {k : Nat} :
    mcontains m k = true ↔ k ∈ mkeys m := by
  unfold mcontains
  rcases h : mfind m k with _ | v
  · simpa [h] using mfind_eq_none.1 h
  · simp only [Option.isSome_some, true_iff]
    exact mem_keys_of_mem (mfind_mem h)

theorem mcontains_eq_false {m : AssocMap} {k : Nat} :
    mcontains m k = false ↔ k ∉ mkeys m := by
  rcases h : mcontains m k
  · simpa using fun hmem => by simp [mcontains_iff.2 hmem] at h
  · simpa using mcontains_iff.1 h

theorem mfind_eq_of_mem {m : AssocMap} {k : Nat} {v : Order}
    (hd : (mkeys m).Nodup) (h : (k, v) ∈ m) : mfind m k = some v := by
  induction m with
  | nil => simp at h
  | cons e rest ih =>
    obtain ⟨k1, v1⟩ := e
    rw [mkeys_cons, List.nodup_cons] at hd
    rcases List.mem_cons.1 h with he | he
    · injection he with h1 h2
      subst h1
      subst h2
      exact mfind_cons_self _ _ _
    · have hk : k ≠ k1 := by
        rintro rfl
        exact hd.1 (mem_keys_of_mem he)
      rw [mfind_cons_ne _ _ hk]
      exact ih hd.2 he

theorem mfind_minsert_self {m : AssocMap} {k : Nat} {v : Order} :
    mfind (minsert m k v) k = some v := by
  induction m with
  | nil => simp [minsert, mfind]
  | cons e rest ih =>
    obtain ⟨k1, v1⟩ := e
    by_cases hk : k = k1
    · subst hk
      rw [minsert_cons_self, mfind_cons_self]
    · rw [minsert_cons_ne _ _ _ hk, mfind_cons_ne _ _ hk]
      exact ih

theorem mfind_minsert_ne {m : AssocMap} {k k2 : Nat} {v : Order}
    (h : k2 ≠ k) : mfind (minsert m k v) k2 = mfind m k2 := by
  induction m with
  | nil => simp [minsert, mfind, h]
  | cons e rest ih =>
    obtain ⟨k1, v1⟩ := e
    by_cases hk : k = k1
    · subst hk
      rw [minsert_cons_self, mfind_cons_ne _ _ h, mfind_cons_ne _ _ h]
    · rw [minsert_cons_ne _ _ _ hk]
      by_cases hk2 : k2 = k1
      · subst hk2
        rw [mfind_cons_self, mfind_cons_self]
      · rw [mfind_cons_ne _ _ hk2, mfind_cons_ne _ _ hk2]
        exact ih

theorem mem_keys_minsert {m : AssocMap} {k a : Nat} {v : Order} :
    a ∈ mkeys (minsert m k v) ↔ a = k ∨ a ∈ mkeys m := by
  induction m with
  | nil => simp [minsert]
  | cons e rest ih =>
    obtain ⟨k1, v1⟩ := e
    by_cases hk : k = k1
    · subst hk
      rw [minsert_cons_self, mkeys_cons, mkeys_cons]
      simp only [List.mem_cons]
      tauto
    · rw [minsert_cons_ne _ _ _ hk, mkeys_cons, mkeys_cons]
      simp only [List.mem_cons, ih]
      tauto

theorem nodup_keys_minsert {m : AssocMap} {k : Nat} {v : Order}
    (h : (mkeys m).Nodup) : (mkeys (minsert m k v)).Nodup := by
  induction m with
  | nil => simp [minsert]
  | cons e rest ih =>
    obtain ⟨k1, v1⟩ := e
    rw [mkeys_cons, List.nodup_cons] at h
    by_cases hk : k = k1
    · subst hk
      rw [minsert_cons_self, mkeys_cons, List.nodup_cons]
      exact h
    · rw [minsert_cons_ne _ _ _ hk, mkeys_cons, List.nodup_cons]
      refine ⟨?_, ih h.2⟩
      intro hmem
      rcases mem_keys_minsert.1 hmem with h1 | h1
      · exact hk h1.symm
      · exact h.1 h1

theorem mem_minsert_elim {m : AssocMap} {k : Nat} {v : Order} {e : Nat × Order}
    (h : e ∈ minsert m k v) : e = (k, v) ∨ e ∈ m := by
  induction m with
  | nil => simpa [minsert] using h
  | cons e1 rest ih =>
    obtain ⟨k1, v1⟩ := e1
    by_cases hk : k = k1
    · subst hk
      rw [minsert_cons_self] at h
      rcases List.mem_cons.1 h with h1 | h1
      · exact Or.inl h1
      · exact Or.inr (List.mem_cons_of_mem _ h1)
    · rw [minsert_cons_ne _ _ _ hk] at h
      rcases List.mem_cons.1 h with h1 | h1
      · exact Or.inr (h1 ▸ List.mem_cons_self _ _)
      · rcases ih h1 with h2 | h2
        · exact Or.inl h2
        · exact Or.inr (List.mem_cons_of_mem _ h2)

theorem mem_minsert_of_ne {m : AssocMap} {k : Nat} {v : Order} {e : Nat × Order}
    (he : e ∈ m) (hne : Prod.fst e ≠ k) : e ∈ minsert m k v := by
  induction m with
  | nil => simp at he
  | cons e1 rest ih =>
    obtain ⟨k1, v1⟩ := e1
    by_cases hk : k = k1
    · subst hk
      rw [minsert_cons_self]
      rcases List.mem_cons.1 he with rfl | h1
      · exact absurd rfl hne
      · exact List.mem_cons_of_mem _ h1
    · rw [minsert_cons_ne _ _ _ hk]
      rcases List.mem_cons.1 he with rfl | h1
      · exact List.mem_cons_self _ _
      · exact List.mem_cons_of_mem _ (ih h1)

theorem self_mem_minsert (m : AssocMap) (k : Nat) (v : Order) :
    (k, v) ∈ minsert m k v :=
  mfind_mem mfind_minsert_self

theorem merase_sublist (m : AssocMap) (k : Nat) :
    List.Sublist (merase m k) m := by
  induction m with
  | nil => simp [merase]
  | cons e rest ih =>
    obtain ⟨k1, v1⟩ := e
    by_cases hk : k = k1
    · subst hk
      rw [merase_cons_self]
      exact List.sublist_cons_self _ _
    · rw [merase_cons_ne _ _ hk]
      exact List.Sublist.cons₂ _ ih

theorem mem_merase_sub {m : AssocMap} {k : Nat} {e : Nat × Order}
    (h : e ∈ merase m k) : e ∈ m :=
  (merase_sublist m k).subset h

theorem nodup_keys_merase {m : AssocMap} {k : Nat}
    (h : (mkeys m).Nodup) : (mkeys (merase m k)).Nodup :=
  ((merase_sublist m k).map Prod.fst).nodup h

theorem mem_merase_of_ne {m : AssocMap} {k : Nat} {e : Nat × Order}
    (he : e ∈ m) (hne : Prod.fst e ≠ k) : e ∈ merase m k := by
  induction m with
  | nil => simp at he
  | cons e1 rest ih =>
    obtain ⟨k1, v1⟩ := e1
    by_cases hk : k = k1
    · subst hk
      rw [merase_cons_self]
      rcases List.mem_cons.1 he with rfl | h1
      · exact absurd rfl hne
      · exact h1
    · rw [merase_cons_ne _ _ hk]
      rcases List.mem_cons.1 he with rfl | h1
      · exact List.mem_cons_self _ _
      · exact List.mem_cons_of_mem _ (ih h1)

theorem key_ne_of_mem_merase {m : AssocMap} {k : Nat} {e : Nat × Order}
    (hd : (mkeys m).Nodup) (he : e ∈ merase m k) : Prod.fst e ≠ k := by
  induction m with
  | nil => simp [merase] at he
  | cons e1 rest ih =>
    obtain ⟨k1, v1⟩ := e1
    rw [mkeys_cons, List.nodup_cons] at hd
    by_cases hk : k = k1
    · subst hk
      rw [merase_cons_self] at he
      intro hek
      exact hd.1 (hek ▸ mem_keys_of_mem he)
    · rw [merase_cons_ne _ _ hk] at he
      rcases List.mem_cons.1 he with rfl | h1
      · simpa using fun h => hk h.symm
      · exact ih hd.2 h1

theorem mfind_merase_ne {m : AssocMap} {k k2 : Nat}
    (h : k2 ≠ k) : mfind (merase m k) k2 = mfind m k2 := by
  induction m with
  | nil => simp [merase]
  | cons e rest ih =>
    obtain ⟨k1, v1⟩ := e
    by_cases hk : k = k1
    · subst hk
      rw [merase_cons_self, mfind_cons_ne _ _ h]
    · rw [merase_cons_ne _ _ hk]
      by_cases hk2 : k2 = k1
      · subst hk2
        rw [mfind_cons_self, mfind_cons_self]
      · rw [mfind_cons_ne _ _ hk2, mfind_cons_ne _ _ hk2]
        exact ih

theorem mfind_merase_self {m : AssocMap} {k : Nat}
    (hd : (mkeys m).Nodup) : mfind (merase m k) k = none := by
  refine mfind_eq_none.2 ?_
  intro hmem
  rcases List.mem_map.1 hmem with ⟨e, he, hek⟩
  exact key_ne_of_mem_merase hd he hek

theorem mem_mvals {m : AssocMap} {v : Order} :
    v ∈ mvals m ↔ ∃ e ∈ m, Prod.snd e = v := List.mem_map

theorem mem_minsert_strong {m : AssocMap} {k : Nat} {v : Order} {e : Nat × Order}
    (hd : (mkeys m).Nodup) (h : e ∈ minsert m k v) :
    e = (k, v) ∨ (e ∈ m ∧ Prod.fst e ≠ k) := by
  induction m with
  | nil => simpa [minsert] using h
  | cons e1 rest ih =>
    obtain ⟨k1, v1⟩ := e1
    rw [mkeys_cons, List.nodup_cons] at hd
    by_cases hk : k = k1
    · subst hk
      rw [minsert_cons_self] at h
      rcases List.mem_cons.1 h with h1 | h1
      · exact Or.inl h1
      · refine Or.inr ⟨List.mem_cons_of_mem _ h1, ?_⟩
        intro hek
        exact hd.1 (hek ▸ mem_keys_of_mem h1)
    · rw [minsert_cons_ne _ _ _ hk] at h
      rcases List.mem_cons.1 h with h1 | h1
      · subst h1
        exact Or.inr ⟨List.mem_cons_self _ _, fun hek => hk hek.symm⟩
      · rcases ih hd.2 h1 with h2 | h2
        · exact Or.inl h2
        · exact Or.inr ⟨List.mem_cons_of_mem _ h2.1, h2.2⟩

theorem mcontains_minsert_iff {m : AssocMap} {k p : Nat} {v : Order} :
    mcontains (minsert m k v) p = true ↔ p = k ∨ mcontains m p = true := by
  rw [mcontains_iff, mem_keys_minsert, mcontains_iff]

theorem mcontains_merase_ne {m : AssocMap} {k p : Nat} (h : p ≠ k) :
    mcontains (merase m k) p = mcontains m p := by
  unfold mcontains
  rw [mfind_merase_ne h]

theorem removeById_of_find {b : SideBook} {i : Nat} {o : Order}
    (hfind : mfind b.idToOrder i = some o) :
    b.removeById i =
      { prices := b.prices.erase o.price
        toOrder := merase b.toOrder o.price
        idToOrder := merase b.idToOrder i } := by
  unfold SideBook.removeById
  rw [hfind]

theorem removeById_of_none {b : SideBook} {i : Nat}
    (hfind : mfind b.idToOrder i = none) : b.removeById i = b := by
  unfold SideBook.removeById
  rw [hfind]

theorem setVolume_of_find {b : SideBook} {i v : Nat} {o : Order}
    (hfind : mfind b.idToOrder i = some o) :
    b.setVolume i v =
      { prices := b.prices
        toOrder := minsert b.toOrder o.price { o with volume := v }
        idToOrder := minsert b.idToOrder i { o with volume := v } } := by
  unfold SideBook.setVolume
  rw [hfind]

theorem setVolume_of_none {b : SideBook} {i v : Nat}
    (hfind : mfind b.idToOrder i = none) : b.setVolume i v = b := by
  unfold SideBook.setVolume
  rw [hfind]

theorem nodup_of_sorted {l : List Nat} (h : List.Pairwise (· < ·) l) : l.Nodup :=
  h.imp Nat.ne_of_lt

theorem price_entry_of_val {b : SideBook} (hc : b.consistent) {o : Order}
    (h : o ∈ mvals b.toOrder) : (o.price, o) ∈ b.toOrder := by
  obtain ⟨hps, hndt, hndi, hkpt, hkpi, hpc, hcp, hsmall, hvti, hvit⟩ := hc
  rcases mem_mvals.1 h with ⟨f, hf, hfv⟩
  have : Prod.fst f = o.price := by
    rw [← hfv]
    exact (hkpt f hf).symm
  have he : f = (o.price, o) := Prod.ext this hfv
  exact he ▸ hf

theorem id_entry_of_val {b : SideBook} (hc : b.consistent) {o : Order}
    (h : o ∈ mvals b.idToOrder) : (o.orderId, o) ∈ b.idToOrder := by
  obtain ⟨hps, hndt, hndi, hkpt, hkpi, hpc, hcp, hsmall, hvti, hvit⟩ := hc
  rcases mem_mvals.1 h with ⟨f, hf, hfv⟩
  have : Prod.fst f = o.orderId := by
    rw [← hfv]
    exact (hkpi f hf).symm
  have he : f = (o.orderId, o) := Prod.ext this hfv
  exact he ▸ hf

theorem consistent_removeById {b : SideBook} {i : Nat}
    (hc : b.consistent) : (b.removeById i).consistent := by
  rcases hfind : mfind b.idToOrder i with _ | o
  · rw [removeById_of_none hfind]
    exact hc
  rw [removeById_of_find hfind]
  obtain ⟨hps, hndt, hndi, hkpt, hkpi, hpc, hcp, hsmall, hvti, hvit⟩ := hc
  have hio : (i, o) ∈ b.idToOrder := mfind_mem hfind
  have hoid : o.orderId = i := hkpi _ hio
  have hovt : o ∈ mvals b.toOrder :=
    hvit _ hio
  have hpo : (o.price, o) ∈ b.toOrder :=
    price_entry_of_val ⟨hps, hndt, hndi, hkpt, hkpi, hpc, hcp, hsmall, hvti, hvit⟩ hovt
  have hnd : b.prices.Nodup := nodup_of_sorted hps
  refine ⟨hps.sublist (List.erase_sublist _ _), nodup_keys_merase hndt,
    nodup_keys_merase hndi, ?_, ?_, ?_, ?_, ?_, ?_, ?_⟩
  · intro e he
    exact hkpt e (mem_merase_sub he)
  · intro e he
    exact hkpi e (mem_merase_sub he)
  · intro p hp
    rcases (List.Nodup.mem_erase_iff hnd).1 hp with ⟨hpne, hpin⟩
    rw [mcontains_merase_ne hpne]
    exact hpc p hpin
  · intro e he
    have h1 : Prod.fst e ∈ b.prices := hcp e (mem_merase_sub he)
    have h2 : Prod.fst e ≠ o.price := key_ne_of_mem_merase hndt he
    exact (List.Nodup.mem_erase_iff hnd).2 ⟨h2, h1⟩
  · intro p hp
    exact hsmall p ((List.erase_sublist _ _).subset hp)
  · intro e he
    have he' : e ∈ b.toOrder := mem_merase_sub he
    have hne : Prod.fst e ≠ o.price := key_ne_of_mem_merase hndt he
    rcases mem_mvals.1 (hvti e he') with ⟨f, hf, hfv⟩
    have hfid : Prod.fst f ≠ i := by
      rintro hfi
      have hfe : f = (i, Prod.snd f) := Prod.ext hfi rfl
      have hfind2 : mfind b.idToOrder i = some (Prod.snd f) :=
        mfind_eq_of_mem hndi (hfe ▸ hf)
      rw [hfind] at hfind2
      have hoe : Prod.snd e = o := by
        rw [← hfv]
        exact (Option.some.inj hfind2).symm
      refine hne ?_
      rw [← hoe]
      exact (hkpt e he').symm
    exact mem_mvals.2 ⟨f, mem_merase_of_ne hf hfid, hfv⟩
  · intro e he
    have he' : e ∈ b.idToOrder := mem_merase_sub he
    have hnei : Prod.fst e ≠ i := key_ne_of_mem_merase hndi he
    rcases mem_mvals.1 (hvit e he') with ⟨f, hf, hfv⟩
    have hfp : Prod.fst f ≠ o.price := by
      rintro hfo
      have hfe : f = (o.price, Prod.snd f) := Prod.ext hfo rfl
      have h1 : mfind b.toOrder o.price = some (Prod.snd f) :=
        mfind_eq_of_mem hndt (hfe ▸ hf)
      have h2 : mfind b.toOrder o.price = some o :=
        mfind_eq_of_mem hndt hpo
      rw [h1] at h2
      have heo : Prod.snd e = o := by
        rw [← hfv]
        exact Option.some.inj h2
      refine hnei ?_
      rw [← hoid, ← heo]
      exact (hkpi e he').symm
    exact mem_mvals.2 ⟨f, mem_merase_of_ne hf hfp, hfv⟩

theorem consistent_setVolume {b : SideBook} {i v : Nat}
    (hc : b.consistent) : (b.setVolume i v).consistent := by
  rcases hfind : mfind b.idToOrder i with _ | o
  · rw [setVolume_of_none hfind]
    exact hc
  rw [setVolume_of_find hfind]
  obtain ⟨hps, hndt, hndi, hkpt, hkpi, hpc, hcp, hsmall, hvti, hvit⟩ := hc
  have hio : (i, o) ∈ b.idToOrder := mfind_mem hfind
  have hoid : o.orderId = i := hkpi _ hio
  have hovt : o ∈ mvals b.toOrder := hvit _ hio
  have hpo : (o.price, o) ∈ b.toOrder :=
    price_entry_of_val ⟨hps, hndt, hndi, hkpt, hkpi, hpc, hcp, hsmall, hvti, hvit⟩ hovt
  refine ⟨hps, nodup_keys_minsert hndt, nodup_keys_minsert hndi, ?_, ?_, ?_, ?_, ?_, ?_, ?_⟩
  · intro e he
    rcases mem_minsert_elim he with rfl | he2
    · rfl
    · exact hkpt e he2
  · intro e he
    rcases mem_minsert_elim he with rfl | he2
    · exact hoid
    · exact hkpi e he2
  · intro p hp
    exact mcontains_minsert_iff.2 (Or.inr (hpc p hp))
  · intro e he
    rcases mem_minsert_elim he with rfl | he2
    · exact hcp (o.price, o) hpo
    · exact hcp e he2
  · exact hsmall
  · intro e he
    rcases mem_minsert_strong hndt he with rfl | ⟨he2, hne⟩
    · exact mem_mvals.2 ⟨(i, { o with volume := v }), self_mem_minsert _ _ _, rfl⟩
    · rcases mem_mvals.1 (hvti e he2) with ⟨f, hf, hfv⟩
      have hfid : Prod.fst f ≠ i := by
        rintro hfi
        have hfe : f = (i, Prod.snd f) := Prod.ext hfi rfl
        have hfind2 : mfind b.idToOrder i = some (Prod.snd f) :=
          mfind_eq_of_mem hndi (hfe ▸ hf)
        rw [hfind] at hfind2
        have hoe : Prod.snd e = o := by
          rw [← hfv]
          exact (Option.some.inj hfind2).symm
        refine hne ?_
        rw [← hoe]
        exact (hkpt e he2).symm
      exact mem_mvals.2 ⟨f, mem_minsert_of_ne hf hfid, hfv⟩
  · intro e he
    rcases mem_minsert_strong hndi he with rfl | ⟨he2, hne⟩
    · exact mem_mvals.2 ⟨(o.price, { o with volume := v }), self_mem_minsert _ _ _, rfl⟩
    · rcases mem_mvals.1 (hvit e he2) with ⟨f, hf, hfv⟩
      have hfp : Prod.fst f ≠ o.price := by
        rintro hfo
        have hfe : f = (o.price, Prod.snd f) := Prod.ext hfo rfl
        have h1 : mfind b.toOrder o.price = some (Prod.snd f) :=
          mfind_eq_of_mem hndt (hfe ▸ hf)
        have h2 : mfind b.toOrder o.price = some o :=
          mfind_eq_of_mem hndt hpo
        rw [h1] at h2
        have heo : Prod.snd e = o := by
          rw [← hfv]
          exact Option.some.inj h2
        refine hne ?_
        rw [← hoid, ← heo]
        exact (hkpi e he2).symm
      exact mem_mvals.2 ⟨f, mem_minsert_of_ne hf hfp, hfv⟩

theorem consistent_addOrder {b : SideBook} {o : Order}
    (hc : b.consistent) (hp : o.price ∉ b.prices)
    (hid : o.orderId ∉ mkeys b.idToOrder)
    (hps32 : o.price < 4294967296) : (b.addOrder o).consistent := by
  obtain ⟨hps, hndt, hndi, hkpt, hkpi, hpc, hcp, hsmall, hvti, hvit⟩ := hc
  have hpk : o.price ∉ mkeys b.toOrder := by
    intro hmem
    rcases List.mem_map.1 hmem with ⟨e, he, hek⟩
    exact hp (hek ▸ hcp e he)
  unfold SideBook.addOrder
  refine ⟨pairwise_setInsert hps, nodup_keys_minsert hndt, nodup_keys_minsert hndi,
    ?_, ?_, ?_, ?_, ?_, ?_, ?_⟩
  · intro e he
    rcases mem_minsert_elim he with rfl | he2
    · rfl
    · exact hkpt e he2
  · intro e he
    rcases mem_minsert_elim he with rfl | he2
    · rfl
    · exact hkpi e he2
  · intro p hp2
    rcases mem_setInsert.1 hp2 with rfl | hp3
    · exact mcontains_minsert_iff.2 (Or.inl rfl)
    · exact mcontains_minsert_iff.2 (Or.inr (hpc p hp3))
  · intro e he
    rcases mem_minsert_elim he with rfl | he2
    · exact mem_setInsert.2 (Or.inl rfl)
    · exact mem_setInsert.2 (Or.inr (hcp e he2))
  · intro p hp2
    rcases mem_setInsert.1 hp2 with rfl | hp3
    · exact hps32
    · exact hsmall p hp3
  · intro e he
    rcases mem_minsert_elim he with rfl | he2
    · exact mem_mvals.2 ⟨(o.orderId, o), self_mem_minsert _ _ _, rfl⟩
    · rcases mem_mvals.1 (hvti e he2) with ⟨f, hf, hfv⟩
      have hfid : Prod.fst f ≠ o.orderId := fun hfo => hid (hfo ▸ mem_keys_of_mem hf)
      exact mem_mvals.2 ⟨f, mem_minsert_of_ne hf hfid, hfv⟩
  · intro e he
    rcases mem_minsert_elim he with rfl | he2
    · exact mem_mvals.2 ⟨(o.price, o), self_mem_minsert _ _ _, rfl⟩
    · rcases mem_mvals.1 (hvit e he2) with ⟨f, hf, hfv⟩
      have hfp : Prod.fst f ≠ o.price := fun hfo => hpk (hfo ▸ mem_keys_of_mem hf)
      exact mem_mvals.2 ⟨f, mem_minsert_of_ne hf hfp, hfv⟩

theorem wrap32_lt (n : Nat) : wrap32 n < 4294967296 :=
  Nat.mod_lt _ (by norm_num)

theorem ladderPriceBid_lt (front offset : Nat) : ladderPriceBid front offset < 4294967296 :=
  wrap32_lt _

theorem ladderPriceAsk_lt (front offset : Nat) : ladderPriceAsk front offset < 4294967296 :=
  wrap32_lt _

theorem insertLoopBid_nextId_mono (front : Nat) : ∀ (offs : List Nat) (q : QuoteLoop),
    q.nextId ≤ (insertLoopBid front offs q).nextId := by
  intro offs
  induction offs with
  | nil =>
    intro q
    exact Nat.le_refl _
  | cons offset rest ih =>
    intro q
    simp only [insertLoopBid]
    by_cases hcond : 0 < q.maxSize ∧ 0 < q.budget
    · rw [if_pos hcond]
      by_cases hmem : ladderPriceBid front offset ∈ q.book.prices
      · rw [if_pos hmem]
        exact ih q
      · rw [if_neg hmem]
        exact Nat.le_trans (Nat.le_succ _)
          (ih { book := q.book.addOrder
                  { price := ladderPriceBid front offset,
                    volume := (min (LOT_SIZE : Int) q.maxSize).toNat,
                    orderId := wrap32 q.nextId }
                nextId := q.nextId + 1
                maxSize := q.maxSize - (((min (LOT_SIZE : Int) q.maxSize).toNat : Nat) : Int)
                budget := q.budget - 1
                cmds := q.cmds ++ [Command.insertOrder (wrap32 q.nextId) Side.BUY
                  (ladderPriceBid front offset) ((min (LOT_SIZE : Int) q.maxSize).toNat)] })
    · rw [if_neg hcond]

theorem insertLoopAsk_nextId_mono (front : Nat) : ∀ (offs : List Nat) (q : QuoteLoop),
    q.nextId ≤ (insertLoopAsk front offs q).nextId := by
  intro offs
  induction offs with
  | nil =>
    intro q
    exact Nat.le_refl _
  | cons offset rest ih =>
    intro q
    simp only [insertLoopAsk]
    by_cases hcond : 0 < q.maxSize ∧ 0 < q.budget
    · rw [if_pos hcond]
      by_cases hmem : ladderPriceAsk front offset ∈ q.book.prices
      · rw [if_pos hmem]
        exact ih q
      · rw [if_neg hmem]
        exact Nat.le_trans (Nat.le_succ _)
          (ih { book := q.book.addOrder
                  { price := ladderPriceAsk front offset,
                    volume := (min (LOT_SIZE : Int) q.maxSize).toNat,
                    orderId := wrap32 q.nextId }
                nextId := q.nextId + 1
                maxSize := q.maxSize - (((min (LOT_SIZE : Int) q.maxSize).toNat : Nat) : Int)
                budget := q.budget - 1
                cmds := q.cmds ++ [Command.insertOrder (wrap32 q.nextId) Side.SELL
                  (ladderPriceAsk front offset) ((min (LOT_SIZE : Int) q.maxSize).toNat)] })
    · rw [if_neg hcond]

theorem insertLoopBid_toOrder_sub (front : Nat) : ∀ (offs : List Nat) (q : QuoteLoop),
    ∀ e ∈ (insertLoopBid front offs q).book.toOrder,
      e ∈ q.book.toOrder ∨
        ((∃ off ∈ offs, Prod.fst e = ladderPriceBid front off) ∧
          (Prod.snd e).price = Prod.fst e) := by
  intro offs
  induction offs with
  | nil =>
    intro q e he
    exact Or.inl he
  | cons offset rest ih =>
    intro q e
    simp only [insertLoopBid]
    by_cases hcond : 0 < q.maxSize ∧ 0 < q.budget
    · rw [if_pos hcond]
      by_cases hmem : ladderPriceBid front offset ∈ q.book.prices
      · rw [if_pos hmem]
        intro he
        rcases ih q e he with h6 | ⟨⟨off, hoff, hoffe⟩, h7⟩
        · exact Or.inl h6
        · exact Or.inr ⟨⟨off, List.mem_cons_of_mem _ hoff, hoffe⟩, h7⟩
      · rw [if_neg hmem]
        intro he
        rcases ih _ e he with h6 | ⟨⟨off, hoff, hoffe⟩, h7⟩
        · rcases mem_minsert_elim h6 with rfl | h7
          · exact Or.inr ⟨⟨offset, List.mem_cons_self _ _, rfl⟩, rfl⟩
          · exact Or.inl h7
        · exact Or.inr ⟨⟨off, List.mem_cons_of_mem _ hoff, hoffe⟩, h7⟩
    · rw [if_neg hcond]
      intro he
      exact Or.inl he

theorem insertLoopAsk_toOrder_sub (front : Nat) : ∀ (offs : List Nat) (q : QuoteLoop),
    ∀ e ∈ (insertLoopAsk front offs q).book.toOrder,
      e ∈ q.book.toOrder ∨
        ((∃ off ∈ offs, Prod.fst e = ladderPriceAsk front off) ∧
          (Prod.snd e).price = Prod.fst e) := by
  intro offs
  induction offs with
  | nil =>
    intro q e he
    exact Or.inl he
  | cons offset rest ih =>
    intro q e
    simp only [insertLoopAsk]
    by_cases hcond : 0 < q.maxSize ∧ 0 < q.budget
    · rw [if_pos hcond]
      by_cases hmem : ladderPriceAsk front offset ∈ q.book.prices
      · rw [if_pos hmem]
        intro he
        rcases ih q e he with h6 | ⟨⟨off, hoff, hoffe⟩, h7⟩
        · exact Or.inl h6
        · exact Or.inr ⟨⟨off, List.mem_cons_of_mem _ hoff, hoffe⟩, h7⟩
      · rw [if_neg hmem]
        intro he
        rcases ih _ e he with h6 | ⟨⟨off, hoff, hoffe⟩, h7⟩
        · rcases mem_minsert_elim h6 with rfl | h7
          · exact Or.inr ⟨⟨offset, List.mem_cons_self _ _, rfl⟩, rfl⟩
          · exact Or.inl h7
        · exact Or.inr ⟨⟨off, List.mem_cons_of_mem _ hoff, hoffe⟩, h7⟩
    · rw [if_neg hcond]
      intro he
      exact Or.inl he

theorem insertLoopBid_inv (front : Nat) : ∀ (offs : List Nat) (q : QuoteLoop),
    q.book.consistent → (∀ e ∈ q.book.idToOrder, Prod.fst e < q.nextId) →
    (insertLoopBid front offs q).nextId ≤ 4294967296 →
    (insertLoopBid front offs q).book.consistent ∧
    (∀ e ∈ (insertLoopBid front offs q).book.idToOrder,
      Prod.fst e < (insertLoopBid front offs q).nextId) ∧
    (∀ e ∈ (insertLoopBid front offs q).book.idToOrder,
      e ∈ q.book.idToOrder ∨ q.nextId ≤ Prod.fst e) := by
  intro offs
  induction offs with
  | nil =>
    intro q hc hb hbnd
    exact ⟨hc, hb, fun e he => Or.inl he⟩
  | cons offset rest ih =>
    intro q hc hb hbnd
    simp only [insertLoopBid] at hbnd ⊢
    by_cases hcond : 0 < q.maxSize ∧ 0 < q.budget
    · rw [if_pos hcond] at hbnd ⊢
      by_cases hmem : ladderPriceBid front offset ∈ q.book.prices
      · rw [if_pos hmem] at hbnd ⊢
        exact ih q hc hb hbnd
      · rw [if_neg hmem] at hbnd ⊢
        have hlt : q.nextId < 4294967296 := by
          have h9 := Nat.le_trans (insertLoopBid_nextId_mono front rest _) hbnd
          have h10 : q.nextId + 1 ≤ 4294967296 := h9
          omega
        have hw : wrap32 q.nextId = q.nextId := Nat.mod_eq_of_lt hlt
        have hidf : wrap32 q.nextId ∉ mkeys q.book.idToOrder := by
          rw [hw]
          intro hk
          rcases List.mem_map.1 hk with ⟨e, he, hek⟩
          exact absurd (hek ▸ hb e he) (Nat.lt_irrefl _)
        have hc2 : (q.book.addOrder
            { price := ladderPriceBid front offset,
              volume := (min (LOT_SIZE : Int) q.maxSize).toNat,
              orderId := wrap32 q.nextId }).consistent :=
          consistent_addOrder hc hmem hidf (ladderPriceBid_lt _ _)
        have hb2 : ∀ e ∈ (q.book.addOrder
            { price := ladderPriceBid front offset,
              volume := (min (LOT_SIZE : Int) q.maxSize).toNat,
              orderId := wrap32 q.nextId }).idToOrder, Prod.fst e < q.nextId + 1 := by
          intro e he
          rcases mem_minsert_elim he with rfl | he2
          · exact Nat.lt_succ_of_le (Nat.le_of_eq hw)
          · exact Nat.lt_succ_of_lt (hb e he2)
        rcases ih
          { book := q.book.addOrder
              { price := ladderPriceBid front offset,
                volume := (min (LOT_SIZE : Int) q.maxSize).toNat,
                orderId := wrap32 q.nextId }
            nextId := q.nextId + 1
            maxSize := q.maxSize - (((min (LOT_SIZE : Int) q.maxSize).toNat : Nat) : Int)
            budget := q.budget - 1
            cmds := q.cmds ++ [Command.insertOrder (wrap32 q.nextId) Side.BUY
              (ladderPriceBid front offset) ((min (LOT_SIZE : Int) q.maxSize).toNat)] }
          hc2 hb2 hbnd with ⟨h1, h2, h4⟩
        refine ⟨h1, h2, fun e he => ?_⟩
        rcases h4 e he with h6 | h6
        · rcases mem_minsert_elim h6 with rfl | h7
          · exact Or.inr (Nat.le_of_eq hw.symm)
          · exact Or.inl h7
        · exact Or.inr (Nat.le_trans (Nat.le_succ _) h6)
    · rw [if_neg hcond] at hbnd ⊢
      exact ⟨hc, hb, fun e he => Or.inl he⟩

theorem insertLoopAsk_inv (front : Nat) : ∀ (offs : List Nat) (q : QuoteLoop),
    q.book.consistent → (∀ e ∈ q.book.idToOrder, Prod.fst e < q.nextId) →
    (insertLoopAsk front offs q).nextId ≤ 4294967296 →
    (insertLoopAsk front offs q).book.consistent ∧
    (∀ e ∈ (insertLoopAsk front offs q).book.idToOrder,
      Prod.fst e < (insertLoopAsk front offs q).nextId) ∧
    (∀ e ∈ (insertLoopAsk front offs q).book.idToOrder,
      e ∈ q.book.idToOrder ∨ q.nextId ≤ Prod.fst e) := by
  intro offs
  induction offs with
  | nil =>
    intro q hc hb hbnd
    exact ⟨hc, hb, fun e he => Or.inl he⟩
  | cons offset rest ih =>
    intro q hc hb hbnd
    simp only [insertLoopAsk] at hbnd ⊢
    by_cases hcond : 0 < q.maxSize ∧ 0 < q.budget
    · rw [if_pos hcond] at hbnd ⊢
      by_cases hmem : ladderPriceAsk front offset ∈ q.book.prices
      · rw [if_pos hmem] at hbnd ⊢
        exact ih q hc hb hbnd
      · rw [if_neg hmem] at hbnd ⊢
        have hlt : q.nextId < 4294967296 := by
          have h9 := Nat.le_trans (insertLoopAsk_nextId_mono front rest _) hbnd
          have h10 : q.nextId + 1 ≤ 4294967296 := h9
          omega
        have hw : wrap32 q.nextId = q.nextId := Nat.mod_eq_of_lt hlt
        have hidf : wrap32 q.nextId ∉ mkeys q.book.idToOrder := by
          rw [hw]
          intro hk
          rcases List.mem_map.1 hk with ⟨e, he, hek⟩
          exact absurd (hek ▸ hb e he) (Nat.lt_irrefl _)
        have hc2 : (q.book.addOrder
            { price := ladderPriceAsk front offset,
              volume := (min (LOT_SIZE : Int) q.maxSize).toNat,
              orderId := wrap32 q.nextId }).consistent :=
          consistent_addOrder hc hmem hidf (ladderPriceAsk_lt _ _)
        have hb2 : ∀ e ∈ (q.book.addOrder
            { price := ladderPriceAsk front offset,
              volume := (min (LOT_SIZE : Int) q.maxSize).toNat,
              orderId := wrap32 q.nextId }).idToOrder, Prod.fst e < q.nextId + 1 := by
          intro e he
          rcases mem_minsert_elim he with rfl | he2
          · exact Nat.lt_succ_of_le (Nat.le_of_eq hw)
          · exact Nat.lt_succ_of_lt (hb e he2)
        rcases ih
          { book := q.book.addOrder
              { price := ladderPriceAsk front offset,
                volume := (min (LOT_SIZE : Int) q.maxSize).toNat,
                orderId := wrap32 q.nextId }
            nextId := q.nextId + 1
            maxSize := q.maxSize - (((min (LOT_SIZE : Int) q.maxSize).toNat : Nat) : Int)
            budget := q.budget - 1
            cmds := q.cmds ++ [Command.insertOrder (wrap32 q.nextId) Side.SELL
              (ladderPriceAsk front offset) ((min (LOT_SIZE : Int) q.maxSize).toNat)] }
          hc2 hb2 hbnd with ⟨h1, h2, h4⟩
        refine ⟨h1, h2, fun e he => ?_⟩
        rcases h4 e he with h6 | h6
        · rcases mem_minsert_elim h6 with rfl | h7
          · exact Or.inr (Nat.le_of_eq hw.symm)
          · exact Or.inl h7
        · exact Or.inr (Nat.le_trans (Nat.le_succ _) h6)
    · rw [if_neg hcond] at hbnd ⊢
      exact ⟨hc, hb, fun e he => Or.inl he⟩

theorem invariant_update_bid {s : TraderState} {b2 : SideBook}
    (hinv : invariant s) (hc : b2.consistent)
    (hsub : ∀ e ∈ b2.idToOrder, Prod.fst e ∈ mkeys s.bid.idToOrder) :
    invariant { s with bid := b2 } := by
  obtain ⟨hbc, hac, hbb, hab, hdisj⟩ := hinv
  refine ⟨hc, hac, ?_, hab, ?_⟩
  · intro e he
    rcases List.mem_map.1 (hsub e he) with ⟨f, hf, hfk⟩
    exact hfk ▸ hbb f hf
  · intro e he f hf
    rcases List.mem_map.1 (hsub e he) with ⟨g, hg, hgk⟩
    exact hgk ▸ hdisj g hg f hf

theorem invariant_update_ask {s : TraderState} {a2 : SideBook}
    (hinv : invariant s) (hc : a2.consistent)
    (hsub : ∀ e ∈ a2.idToOrder, Prod.fst e ∈ mkeys s.ask.idToOrder) :
    invariant { s with ask := a2 } := by
  obtain ⟨hbc, hac, hbb, hab, hdisj⟩ := hinv
  refine ⟨hbc, hc, hbb, ?_, ?_⟩
  · intro e he
    rcases List.mem_map.1 (hsub e he) with ⟨f, hf, hfk⟩
    exact hfk ▸ hab f hf
  · intro e he f hf
    rcases List.mem_map.1 (hsub f hf) with ⟨g, hg, hgk⟩
    exact hgk ▸ hdisj e he g hg

theorem ids_removeById_sub {b : SideBook} {i : Nat} :
    ∀ e ∈ (b.removeById i).idToOrder, Prod.fst e ∈ mkeys b.idToOrder := by
  intro e he
  rcases hfind : mfind b.idToOrder i with _ | o
  · rw [removeById_of_none hfind] at he
    exact mem_keys_of_mem he
  · rw [removeById_of_find hfind] at he
    exact mem_keys_of_mem (mem_merase_sub he)

theorem ids_setVolume_sub {b : SideBook} {i v : Nat} :
    ∀ e ∈ (b.setVolume i v).idToOrder, Prod.fst e ∈ mkeys b.idToOrder := by
  intro e he
  rcases hfind : mfind b.idToOrder i with _ | o
  · rw [setVolume_of_none hfind] at he
    exact mem_keys_of_mem he
  · rw [setVolume_of_find hfind] at he
    rcases mem_minsert_elim he with rfl | he2
    · show i ∈ mkeys b.idToOrder
      exact mem_keys_of_mem (mfind_mem hfind)
    · exact mem_keys_of_mem he2

theorem invariant_orderStatus {s : TraderState} {id fv rv : Nat} {fees : Int}
    (hinv : invariant s) : invariant (orderStatusMessageHandler s id fv rv fees) := by
  unfold orderStatusMessageHandler
  by_cases hbid : mcontains s.bid.idToOrder id = true
  · rw [if_pos hbid]
    by_cases hrv : rv = 0
    · rw [if_pos hrv]
      exact invariant_update_bid hinv (consistent_removeById hinv.1) ids_removeById_sub
    · rw [if_neg hrv]
      exact invariant_update_bid hinv (consistent_setVolume hinv.1) ids_setVolume_sub
  · rw [if_neg hbid]
    by_cases hask : mcontains s.ask.idToOrder id = true
    · rw [if_pos hask]
      by_cases hrv : rv = 0
      · rw [if_pos hrv]
        exact invariant_update_ask hinv (consistent_removeById hinv.2.1) ids_removeById_sub
      · rw [if_neg hrv]
        exact invariant_update_ask hinv (consistent_setVolume hinv.2.1) ids_setVolume_sub
    · rw [if_neg hask]
      exact hinv

theorem invariant_errorMessage {s : TraderState} {id : Nat}
    (hinv : invariant s) : invariant (errorMessageHandler s id) := by
  unfold errorMessageHandler
  by_cases h : id ≠ 0 ∧
      (mcontains s.ask.idToOrder id = true ∨ mcontains s.bid.idToOrder id = true)
  · rw [if_pos h]
    exact invariant_orderStatus hinv
  · rw [if_neg h]
    exact hinv

theorem invariant_orderFilled {s : TraderState} {id p v : Nat}
    (hinv : invariant s) : invariant (orderFilledMessageHandler s id p v).1 := by
  obtain ⟨hbc, hac, hbb, hab, hdisj⟩ := hinv
  unfold orderFilledMessageHandler
  by_cases h : mcontains s.bid.idToOrder id = true
  · rw [if_pos h]
    exact ⟨hbc, hac, fun e he => Nat.lt_succ_of_lt (hbb e he),
      fun e he => Nat.lt_succ_of_lt (hab e he), hdisj⟩
  · rw [if_neg h]
    exact ⟨hbc, hac, fun e he => Nat.lt_succ_of_lt (hbb e he),
      fun e he => Nat.lt_succ_of_lt (hab e he), hdisj⟩

theorem adjustBidSide_pos {s : TraderState} {bestAsk bestBid : Nat} {budget : Int}
    (h : bestBid ≠ 0) :
    adjustBidSide s bestAsk bestBid budget =
      ({ s with
          bid := (bidQuoteLoopResult s bestAsk bestBid budget).book
          nextMessageId := (bidQuoteLoopResult s bestAsk bestBid budget).nextId },
       (bidScanResult s bestAsk bestBid).1 ++ (bidQuoteLoopResult s bestAsk bestBid budget).cmds,
       (bidQuoteLoopResult s bestAsk bestBid budget).budget) := by
  unfold adjustBidSide
  rw [if_pos h]

theorem adjustBidSide_zero {s : TraderState} {bestAsk : Nat} {budget : Int} :
    adjustBidSide s bestAsk 0 budget = (s, [], budget) := by
  unfold adjustBidSide
  rw [if_neg (by simp)]

theorem adjustAskSide_pos {s : TraderState} {bestAsk bestBid : Nat} {budget : Int}
    (h : bestAsk ≠ 0) :
    adjustAskSide s bestAsk bestBid budget =
      ({ s with
          ask := (askQuoteLoopResult s bestAsk bestBid budget).book
          nextMessageId := (askQuoteLoopResult s bestAsk bestBid budget).nextId },
       (askScanResult s bestAsk bestBid).1 ++ (askQuoteLoopResult s bestAsk bestBid budget).cmds,
       (askQuoteLoopResult s bestAsk bestBid budget).budget) := by
  unfold adjustAskSide
  rw [if_pos h]

theorem adjustAskSide_zero {s : TraderState} {bestBid : Nat} {budget : Int} :
    adjustAskSide s 0 bestBid budget = (s, [], budget) := by
  unfold adjustAskSide
  rw [if_neg (by simp)]

theorem orderBook_eq_future (s : TraderState) (bestAsk bestBid : Nat) (budget : Int) :
    orderBookMessageHandler s Instrument.FUTURE bestAsk bestBid budget =
      ((adjustAskSide (adjustBidSide s bestAsk bestBid budget).1 bestAsk bestBid
          (adjustBidSide s bestAsk bestBid budget).2.2).1,
       (arbCancelBids s.bid bestAsk ++ arbCancelAsks s.ask bestBid) ++
         (adjustBidSide s bestAsk bestBid budget).2.1 ++
         (adjustAskSide (adjustBidSide s bestAsk bestBid budget).1 bestAsk bestBid
           (adjustBidSide s bestAsk bestBid budget).2.2).2.1) := by
  unfold orderBookMessageHandler
  rw [if_pos rfl]

theorem adjustBidSide_nextId_mono (s : TraderState) (bestAsk bestBid : Nat) (budget : Int) :
    s.nextMessageId ≤ (adjustBidSide s bestAsk bestBid budget).1.nextMessageId := by
  unfold adjustBidSide
  by_cases h0 : bestBid ≠ 0
  · rw [if_pos h0]
    exact insertLoopBid_nextId_mono (frontBidPrice bestBid bestAsk s.position)
      (List.range NUM_CLONES)
      { book := s.bid, nextId := s.nextMessageId,
        maxSize := (bidScanResult s bestAsk bestBid).2, budget := budget, cmds := [] }
  · rw [if_neg h0]

theorem adjustAskSide_nextId_mono (s : TraderState) (bestAsk bestBid : Nat) (budget : Int) :
    s.nextMessageId ≤ (adjustAskSide s bestAsk bestBid budget).1.nextMessageId := by
  unfold adjustAskSide
  by_cases h0 : bestAsk ≠ 0
  · rw [if_pos h0]
    exact insertLoopAsk_nextId_mono (frontAskPrice bestBid bestAsk s.position)
      (List.range NUM_CLONES)
      { book := s.ask, nextId := s.nextMessageId,
        maxSize := (askScanResult s bestAsk bestBid).2, budget := budget, cmds := [] }
  · rw [if_neg h0]

theorem orderStatus_nextMessageId (s : TraderState) (id fv rv : Nat) (fees : Int) :
    (orderStatusMessageHandler s id fv rv fees).nextMessageId = s.nextMessageId := by
  unfold orderStatusMessageHandler
  by_cases hbid : mcontains s.bid.idToOrder id = true
  · rw [if_pos hbid]
    by_cases hrv : rv = 0
    · rw [if_pos hrv]
    · rw [if_neg hrv]
  · rw [if_neg hbid]
    by_cases hask : mcontains s.ask.idToOrder id = true
    · rw [if_pos hask]
      by_cases hrv : rv = 0
      · rw [if_pos hrv]
      · rw [if_neg hrv]
    · rw [if_neg hask]

theorem errorMessage_nextMessageId (s : TraderState) (id : Nat) :
    (errorMessageHandler s id).nextMessageId = s.nextMessageId := by
  unfold errorMessageHandler
  by_cases h : id ≠ 0 ∧
      (mcontains s.ask.idToOrder id = true ∨ mcontains s.bid.idToOrder id = true)
  · rw [if_pos h]
    exact orderStatus_nextMessageId s id 0 0 0
  · rw [if_neg h]

theorem stepEvent_nextId_mono (s : TraderState) (e : Event) :
    s.nextMessageId ≤ (stepEvent s e).nextMessageId := by
  cases e with
  | orderBook inst bestAsk bestBid budget =>
    show s.nextMessageId ≤ (orderBookMessageHandler s inst bestAsk bestBid budget).1.nextMessageId
    by_cases hi : inst = Instrument.FUTURE
    · subst hi
      rw [orderBook_eq_future]
      exact Nat.le_trans (adjustBidSide_nextId_mono s bestAsk bestBid budget)
        (adjustAskSide_nextId_mono (adjustBidSide s bestAsk bestBid budget).1 bestAsk bestBid
          (adjustBidSide s bestAsk bestBid budget).2.2)
    · unfold orderBookMessageHandler
      rw [if_neg hi]
  | orderFilled id p v =>
    show s.nextMessageId ≤ (orderFilledMessageHandler s id p v).1.nextMessageId
    unfold orderFilledMessageHandler
    by_cases h : mcontains s.bid.idToOrder id = true
    · rw [if_pos h]
      exact Nat.le_succ _
    · rw [if_neg h]
      exact Nat.le_succ _
  | orderStatus id f r fees =>
    exact Nat.le_of_eq (orderStatus_nextMessageId s id f r fees).symm
  | errorMessage id =>
    exact Nat.le_of_eq (errorMessage_nextMessageId s id).symm

theorem runEvents_nextId_mono : ∀ (evs : List Event) (s : TraderState),
    s.nextMessageId ≤ (runEvents s evs).nextMessageId := by
  intro evs
  induction evs with
  | nil =>
    intro s
    exact Nat.le_refl _
  | cons e rest ih =>
    intro s
    exact Nat.le_trans (stepEvent_nextId_mono s e) (ih (stepEvent s e))

theorem invariant_adjustBid {s : TraderState} {bestAsk bestBid : Nat} {budget : Int}
    (hinv : invariant s)
    (hbnd : (adjustBidSide s bestAsk bestBid budget).1.nextMessageId ≤ 4294967296) :
    invariant (adjustBidSide s bestAsk bestBid budget).1 := by
  obtain ⟨hbc, hac, hbb, hab, hdisj⟩ := hinv
  by_cases h0 : bestBid ≠ 0
  · rw [@adjustBidSide_pos s bestAsk bestBid budget h0] at hbnd ⊢
    have hbnd2 : (insertLoopBid (frontBidPrice bestBid bestAsk s.position)
        (List.range NUM_CLONES)
        { book := s.bid, nextId := s.nextMessageId,
          maxSize := (bidScanResult s bestAsk bestBid).2, budget := budget,
          cmds := [] }).nextId ≤ 4294967296 := hbnd
    rcases insertLoopBid_inv (frontBidPrice bestBid bestAsk s.position) (List.range NUM_CLONES)
      { book := s.bid, nextId := s.nextMessageId,
        maxSize := (bidScanResult s bestAsk bestBid).2, budget := budget, cmds := [] }
      hbc hbb hbnd2 with ⟨h1, h2, h4⟩
    have h3 : s.nextMessageId ≤ (insertLoopBid (frontBidPrice bestBid bestAsk s.position)
        (List.range NUM_CLONES)
        { book := s.bid, nextId := s.nextMessageId,
          maxSize := (bidScanResult s bestAsk bestBid).2, budget := budget,
          cmds := [] }).nextId :=
      insertLoopBid_nextId_mono (frontBidPrice bestBid bestAsk s.position)
        (List.range NUM_CLONES)
        { book := s.bid, nextId := s.nextMessageId,
          maxSize := (bidScanResult s bestAsk bestBid).2, budget := budget, cmds := [] }
    refine ⟨h1, hac, h2, ?_, ?_⟩
    · intro e he
      exact Nat.lt_of_lt_of_le (hab e he) h3
    · intro e he f hf
      rcases h4 e he with h6 | h6
      · exact hdisj e h6 f hf
      · have h7 : Prod.fst f < s.nextMessageId := hab f hf
        have h8 : s.nextMessageId ≤ Prod.fst e := h6
        omega
  · unfold adjustBidSide
    rw [if_neg h0]
    exact ⟨hbc, hac, hbb, hab, hdisj⟩

theorem invariant_adjustAsk {s : TraderState} {bestAsk bestBid : Nat} {budget : Int}
    (hinv : invariant s)
    (hbnd : (adjustAskSide s bestAsk bestBid budget).1.nextMessageId ≤ 4294967296) :
    invariant (adjustAskSide s bestAsk bestBid budget).1 := by
  obtain ⟨hbc, hac, hbb, hab, hdisj⟩ := hinv
  by_cases h0 : bestAsk ≠ 0
  · rw [@adjustAskSide_pos s bestAsk bestBid budget h0] at hbnd ⊢
    have hbnd2 : (insertLoopAsk (frontAskPrice bestBid bestAsk s.position)
        (List.range NUM_CLONES)
        { book := s.ask, nextId := s.nextMessageId,
          maxSize := (askScanResult s bestAsk bestBid).2, budget := budget,
          cmds := [] }).nextId ≤ 4294967296 := hbnd
    rcases insertLoopAsk_inv (frontAskPrice bestBid bestAsk s.position) (List.range NUM_CLONES)
      { book := s.ask, nextId := s.nextMessageId,
        maxSize := (askScanResult s bestAsk bestBid).2, budget := budget, cmds := [] }
      hac hab hbnd2 with ⟨h1, h2, h4⟩
    have h3 : s.nextMessageId ≤ (insertLoopAsk (frontAskPrice bestBid bestAsk s.position)
        (List.range NUM_CLONES)
        { book := s.ask, nextId := s.nextMessageId,
          maxSize := (askScanResult s bestAsk bestBid).2, budget := budget,
          cmds := [] }).nextId :=
      insertLoopAsk_nextId_mono (frontAskPrice bestBid bestAsk s.position)
        (List.range NUM_CLONES)
        { book := s.ask, nextId := s.nextMessageId,
          maxSize := (askScanResult s bestAsk bestBid).2, budget := budget, cmds := [] }
    refine ⟨hbc, h1, ?_, h2, ?_⟩
    · intro e he
      exact Nat.lt_of_lt_of_le (hbb e he) h3
    · intro e he f hf
      rcases h4 f hf with h6 | h6
      · exact hdisj e he f h6
      · have h7 : Prod.fst e < s.nextMessageId := hbb e he
        have h8 : s.nextMessageId ≤ Prod.fst f := h6
        omega
  · unfold adjustAskSide
    rw [if_neg h0]
    exact ⟨hbc, hac, hbb, hab, hdisj⟩

theorem invariant_orderBook {s : TraderState} {inst : Instrument}
    {bestAsk bestBid : Nat} {budget : Int} (hinv : invariant s)
    (hbnd : (orderBookMessageHandler s inst bestAsk bestBid budget).1.nextMessageId ≤
      4294967296) :
    invariant (orderBookMessageHandler s inst bestAsk bestBid budget).1 := by
  by_cases hi : inst = Instrument.FUTURE
  · subst hi
    rw [orderBook_eq_future] at hbnd ⊢
    have hbndA : (adjustAskSide (adjustBidSide s bestAsk bestBid budget).1 bestAsk bestBid
        (adjustBidSide s bestAsk bestBid budget).2.2).1.nextMessageId ≤ 4294967296 := hbnd
    have hbndB : (adjustBidSide s bestAsk bestBid budget).1.nextMessageId ≤ 4294967296 :=
      Nat.le_trans (adjustAskSide_nextId_mono (adjustBidSide s bestAsk bestBid budget).1
        bestAsk bestBid (adjustBidSide s bestAsk bestBid budget).2.2) hbndA
    exact invariant_adjustAsk (invariant_adjustBid hinv hbndB) hbndA
  · unfold orderBookMessageHandler
    rw [if_neg hi]
    exact hinv

theorem invariant_stepEvent {s : TraderState} (hinv : invariant s) (e : Event)
    (hbnd : (stepEvent s e).nextMessageId ≤ 4294967296) : invariant (stepEvent s e) := by
  cases e with
  | orderBook inst bestAsk bestBid budget => exact invariant_orderBook hinv hbnd
  | orderFilled id p v => exact invariant_orderFilled hinv
  | orderStatus id f r fees => exact @invariant_orderStatus s id f r fees hinv
  | errorMessage id => exact invariant_errorMessage hinv

theorem invariant_runEvents : ∀ (evs : List Event) (s : TraderState),
    invariant s → (runEvents s evs).nextMessageId ≤ 4294967296 →
    invariant (runEvents s evs) := by
  intro evs
  induction evs with
  | nil => exact fun s h _ => h
  | cons e rest ih =>
    intro s h hbnd
    have hbnd1 : (stepEvent s e).nextMessageId ≤ 4294967296 :=
      Nat.le_trans (runEvents_nextId_mono rest (stepEvent s e)) hbnd
    exact ih (stepEvent s e) (invariant_stepEvent h e hbnd1) hbnd

theorem invariant_initialState : invariant initialState := by
  decide

theorem sameOrderSet_of_consistent {b : SideBook} (hc : b.consistent) :
    sameOrderSet b := by
  obtain ⟨hps, hndt, hndi, hkpt, hkpi, hpc, hcp, hsmall, hvti, hvit⟩ := hc
  constructor
  · intro o
    constructor
    · intro h
      rcases mem_mvals.1 h with ⟨e, he, hev⟩
      exact hev ▸ hvti e he
    · intro h
      rcases mem_mvals.1 h with ⟨e, he, hev⟩
      exact hev ▸ hvit e he
  · intro p
    constructor
    · intro hp
      rcases Option.isSome_iff_exists.1 (by simpa [mcontains] using hpc p hp) with ⟨o, ho⟩
      have hmem := mfind_mem ho
      exact ⟨o, mem_mvals.2 ⟨(p, o), hmem, rfl⟩, hkpt _ hmem⟩
    · rintro ⟨o, hov, hop⟩
      rcases mem_mvals.1 hov with ⟨e, he, hev⟩
      have hfst : Prod.fst e = p := by
        rw [← hop, ← hev]
        exact (hkpt e he).symm
      exact hfst ▸ hcp e he

/-- A small reachable-looking registry used to instantiate theorems with
hypotheses on concrete inputs: one resting bid (id 1 at 9900) and one
resting ask (id 2 at 10100). -/
def wBook : TraderState :=
  { nextMessageId := 3
    position := 0
    bid := { prices := [9900]
             toOrder := [(9900, { price := 9900, volume := 10, orderId := 1 })]
             idToOrder := [(1, { price := 9900, volume := 10, orderId := 1 })] }
    ask := { prices := [10100]
             toOrder := [(10100, { price := 10100, volume := 10, orderId := 2 })]
             idToOrder := [(2, { price := 10100, volume := 10, orderId := 2 })] } }

/-- C1: the governor's non-cancel budget disagrees with the documented
formula `max(0, floor((cap − live − reserved − margin) / 2))`.  At a rolling
count of 48 with cap 50, reserved slots 6 and margin 0, the `unsigned long`
subtraction `freeMessages - maxOpenOrders - safetyMargin` underflows, the
`std::max(0UL, ...)` clamp never engages, and the `(int)` cast truncates the
huge quotient to −2 — a negative budget where the claim requires 0. -/
theorem nonCancelBudget_underflow_C1 :
    getNonCancelMessagesAllowed 48 = -2 ∧
    getNonCancelMessagesAllowed 48 < 0 ∧
    specNonCancelBudget 50 48 6 0 = 0 :=
  ⟨by decide, by decide, by decide⟩

/-- C5: the inventory-skew adjustment (in ticks, sign included) is zero
whenever |pos| ≤ 50; for |pos| ≥ 50 its magnitude is `(|pos| − 50 + 5) / 10`,
which is round((|pos| − 50)/10) with ties rounded up, and is monotone in the
excess; it is nonpositive for long positions (the same adjustment is added to
both front quotes, so a long position lowers both sides) and nonnegative for
short positions; at position 80 it is exactly −3 ticks. -/
theorem skew_adjustment_C5 :
    (∀ pos : Int, pos.natAbs ≤ 50 → priceAdjustmentTicks pos = 0) ∧
    (∀ pos : Int, 50 ≤ pos.natAbs →
      (priceAdjustmentTicks pos).natAbs = (pos.natAbs - 50 + 5) / 10) ∧
    (∀ a b : Nat, a ≤ b → (a + 5) / 10 ≤ (b + 5) / 10) ∧
    (∀ pos : Int, 50 ≤ pos → priceAdjustmentTicks pos ≤ 0) ∧
    (∀ pos : Int, pos ≤ -50 → 0 ≤ priceAdjustmentTicks pos) ∧
    priceAdjustmentTicks 80 = -3 := by
  refine ⟨?_, ?_, ?_, ?_, ?_, by decide⟩
  · intro pos h
    unfold priceAdjustmentTicks roundTenths minPositionImbalance
    split_ifs <;> omega
  · intro pos h
    unfold priceAdjustmentTicks roundTenths minPositionImbalance
    split_ifs <;> omega
  · intro a b h
    omega
  · intro pos h
    unfold priceAdjustmentTicks roundTenths minPositionImbalance
    split_ifs <;> omega
  · intro pos h
    unfold priceAdjustmentTicks roundTenths minPositionImbalance
    split_ifs <;> omega

/-- Witness for C5 at concrete positions: 80 (three ticks down), 30 (dead
band) and −80 (three ticks up). -/
theorem skew_adjustment_C5_witness :
    priceAdjustmentTicks 80 = -3 ∧
    priceAdjustmentTicks 30 = 0 ∧
    (priceAdjustmentTicks (-80)).natAbs = ((-80 : Int).natAbs - 50 + 5) / 10 :=
  ⟨skew_adjustment_C5.2.2.2.2.2,
   skew_adjustment_C5.1 30 (by decide),
   skew_adjustment_C5.2.1 (-80) (by decide)⟩

/-- C3: a fill on one of the strategy's own resting orders changes the
position by exactly the filled volume — incremented when the id is in the bid
registry, decremented when it is in the ask registry — and emits exactly one
hedge order of the same volume on the opposite side at the corresponding
extreme (guaranteed-to-cross) price. -/
theorem fill_updates_position_and_hedges_C3 (s : TraderState) (id price volume : Nat) :
    (mcontains s.bid.idToOrder id = true →
      (orderFilledMessageHandler s id price volume).1.position = s.position + (volume : Int) ∧
      (orderFilledMessageHandler s id price volume).2 =
        [Command.hedgeOrder s.nextMessageId Side.SELL MIN_BID_NEAREST_TICK volume]) ∧
    (invariant s → mcontains s.ask.idToOrder id = true →
      (orderFilledMessageHandler s id price volume).1.position = s.position - (volume : Int) ∧
      (orderFilledMessageHandler s id price volume).2 =
        [Command.hedgeOrder s.nextMessageId Side.BUY MAX_ASK_NEAREST_TICK volume]) := by
  constructor
  · intro h
    unfold orderFilledMessageHandler
    rw [if_pos h]
    exact ⟨rfl, rfl⟩
  · intro hinv hask
    have hnb : ¬mcontains s.bid.idToOrder id = true := by
      intro hbid
      rcases Option.isSome_iff_exists.1 (by simpa [mcontains] using hbid) with ⟨ob, hob⟩
      rcases Option.isSome_iff_exists.1 (by simpa [mcontains] using hask) with ⟨oa, hoa⟩
      exact hinv.2.2.2.2 (id, ob) (mfind_mem hob) (id, oa) (mfind_mem hoa) rfl
    unfold orderFilledMessageHandler
    rw [if_neg hnb]
    exact ⟨rfl, rfl⟩

/-- Witness for C3: in the two-order registry `wBook`, a fill on bid 1 raises
the position by its volume with a single extreme SELL hedge, and a fill on
ask 2 lowers it. -/
theorem fill_updates_position_and_hedges_C3_witness :
    ((orderFilledMessageHandler wBook 1 9900 10).1.position = wBook.position + (10 : Int) ∧
      (orderFilledMessageHandler wBook 1 9900 10).2 =
        [Command.hedgeOrder wBook.nextMessageId Side.SELL MIN_BID_NEAREST_TICK 10]) ∧
    (orderFilledMessageHandler wBook 2 10100 10).1.position = wBook.position - (10 : Int) :=
  ⟨(fill_updates_position_and_hedges_C3 wBook 1 9900 10).1 (by decide),
   ((fill_updates_position_and_hedges_C3 wBook 2 10100 10).2 (by decide) (by decide)).1⟩

/-- C9: a fill notification naming an id registered on neither side falls
into the else branch of `OrderFilledMessageHandler`: the engine treats it
exactly like a sell-side fill, decrementing the position by the volume and
hedging with a BUY at the extreme price, instead of ignoring it. -/
theorem unknown_fill_treated_as_ask_C9 (s : TraderState) (id price volume : Nat)
    (hb : mcontains s.bid.idToOrder id = false)
    (ha : mcontains s.ask.idToOrder id = false) :
    (orderFilledMessageHandler s id price volume).1.position = s.position - (volume : Int) ∧
    (orderFilledMessageHandler s id price volume).2 =
      [Command.hedgeOrder s.nextMessageId Side.BUY MAX_ASK_NEAREST_TICK volume] := by
  unfold orderFilledMessageHandler
  rw [if_neg (by simp [hb])]
  exact ⟨rfl, rfl⟩

/-- Witness for C9: id 7 is in neither registry of `wBook`. -/
theorem unknown_fill_treated_as_ask_C9_witness :
    (orderFilledMessageHandler wBook 7 9900 4).1.position = wBook.position - (4 : Int) ∧
    (orderFilledMessageHandler wBook 7 9900 4).2 =
      [Command.hedgeOrder wBook.nextMessageId Side.BUY MAX_ASK_NEAREST_TICK 4] :=
  unknown_fill_treated_as_ask_C9 wBook 7 9900 4 (by decide) (by decide)

theorem runEvents_append (s : TraderState) (l1 l2 : List Event) :
    runEvents s (l1 ++ l2) = runEvents (runEvents s l1) l2 := by
  simp [runEvents]

theorem runEvents_cons (s : TraderState) (e : Event) (evs : List Event) :
    runEvents s (e :: evs) = runEvents (stepEvent s e) evs := rfl

theorem runEvents_one (s : TraderState) (e : Event) : runEvents s [e] = stepEvent s e := rfl

theorem stepEvent_burnFill {s : TraderState} (h : mcontains s.bid.idToOrder 0 = false) :
    stepEvent s (Event.orderFilled 0 0 0) = { s with nextMessageId := s.nextMessageId + 1 } := by
  show (orderFilledMessageHandler s 0 0 0).1 = _
  unfold orderFilledMessageHandler
  rw [if_neg (by simp [h])]
  show { s with
      nextMessageId := s.nextMessageId + 1
      position := s.position - ((0 : Nat) : Int) } = _
  have h2 : s.position - ((0 : Nat) : Int) = s.position := by simp
  rw [h2]

theorem runEvents_burnFills : ∀ (k : Nat) (s : TraderState),
    mcontains s.bid.idToOrder 0 = false →
    runEvents s (List.replicate k (Event.orderFilled 0 0 0)) =
      { s with nextMessageId := s.nextMessageId + k } := by
  intro k
  induction k with
  | zero =>
    intro s h
    show s = { s with nextMessageId := s.nextMessageId + 0 }
    rfl
  | succ k ih =>
    intro s h
    rw [List.replicate_succ]
    show runEvents (stepEvent s (Event.orderFilled 0 0 0))
        (List.replicate k (Event.orderFilled 0 0 0)) =
      { s with nextMessageId := s.nextMessageId + (k + 1) }
    rw [stepEvent_burnFill h]
    rw [ih { s with nextMessageId := s.nextMessageId + 1 } h]
    show { s with nextMessageId := s.nextMessageId + 1 + k } =
      { s with nextMessageId := s.nextMessageId + (k + 1) }
    rw [show s.nextMessageId + 1 + k = s.nextMessageId + (k + 1) from by omega]

/-- Fills on the unused id 0 only advance `mNextMessageId` (each sends one
hedge): enough of them walk the 64-bit counter across the 32-bit boundary. -/
def c6Burn : List Event := List.replicate 4294967295 (Event.orderFilled 0 0 0)

/-- Callback sequence for the C6 counterexample: a snapshot inserting the bid
at 9900 with id 1, id-burning fills until `mNextMessageId = 2^32 + 1`, then
the same snapshot again, whose one insert (at 9800) is assigned the truncated
id `(unsigned int)(2^32 + 1) = 1`, colliding with the live order. -/
def c6Events : List Event :=
  Event.orderBook Instrument.FUTURE 10100 10000 1 ::
    (c6Burn ++ [Event.orderBook Instrument.FUTURE 10100 10000 1])

/-- State after the first snapshot of `c6Events`: one resting bid, id 1. -/
def c6Mid : TraderState :=
  { nextMessageId := 2
    position := 0
    bid := { prices := [9900]
             toOrder := [(9900, { price := 9900, volume := 10, orderId := 1 })]
             idToOrder := [(1, { price := 9900, volume := 10, orderId := 1 })] }
    ask := { prices := [], toOrder := [], idToOrder := [] } }

/-- `c6Mid` with the id counter driven past the 32-bit boundary. -/
def c6Wrapped : TraderState := { c6Mid with nextMessageId := 4294967297 }

/-- Final state of the C6 counterexample run: the colliding insert overwrote
the id-map entry 1 while the price views kept the old 9900 order. -/
def c6Final : TraderState :=
  { nextMessageId := 4294967298
    position := 0
    bid := { prices := [9800, 9900]
             toOrder := [(9900, { price := 9900, volume := 10, orderId := 1 }),
                         (9800, { price := 9800, volume := 10, orderId := 1 })]
             idToOrder := [(1, { price := 9800, volume := 10, orderId := 1 })] }
    ask := { prices := [], toOrder := [], idToOrder := [] } }

/-- C6 counterexample: the claim fails as stated.  `mNextMessageId` is a
64-bit counter but the id assigned to an inserted order is its 32-bit
truncation (`unsigned int orderId = mNextMessageId++`, autotrader.cc:149).
After 2^32 ids have been consumed, a fresh bid insert reuses id 1:
`mBidOrderIdToOrder[orderId] = order` overwrites the id-map entry of the
live order resting at 9900, while the price set and the price map keep it —
the three views of the buy side no longer describe the same order set. -/
theorem registry_views_diverge_C6_counterexample :
    ¬ sameOrderSet (runEvents initialState c6Events).bid := by
  have h0 : stepEvent initialState (Event.orderBook Instrument.FUTURE 10100 10000 1) = c6Mid := by
    decide
  have h1 : runEvents c6Mid c6Burn = c6Wrapped :=
    (runEvents_burnFills 4294967295 c6Mid (by decide)).trans (by decide)
  have h2 : stepEvent c6Wrapped (Event.orderBook Instrument.FUTURE 10100 10000 1) = c6Final := by
    decide
  have hrun : runEvents initialState c6Events = c6Final := by
    unfold c6Events
    rw [runEvents_cons, h0, runEvents_append, h1, runEvents_one]
    exact h2
  rw [hrun]
  intro hss
  have hmem : ({ price := 9900, volume := 10, orderId := 1 } : Order) ∈
      mvals c6Final.bid.toOrder := by decide
  have hmem2 := (hss.1 { price := 9900, volume := 10, orderId := 1 }).1 hmem
  revert hmem2
  decide

/-- C6 amended: after any sequence of callbacks starting from the constructed
state, the ordered price set, the price-to-order map and the
order-id-to-order map of each side contain exactly the same set of live
orders — provided the run keeps `mNextMessageId` at or below 2^32, i.e.
fewer than 2^32 message ids have been consumed.  (Beyond that bound the
32-bit truncation of the assigned order id can collide with a live order and
desynchronize the id map from the price views.) -/
theorem registry_views_agree_C6 (evs : List Event)
    (hbnd : (runEvents initialState evs).nextMessageId ≤ 4294967296) :
    sameOrderSet (runEvents initialState evs).bid ∧
    sameOrderSet (runEvents initialState evs).ask :=
  have hinv := invariant_runEvents evs initialState invariant_initialState hbnd
  ⟨sameOrderSet_of_consistent hinv.1, sameOrderSet_of_consistent hinv.2.1⟩

/-- Witness for the amended C6: one full-ladder snapshot consumes six ids,
far below the 2^32 bound, and the three views of both sides agree. -/
theorem registry_views_agree_C6_witness :
    (runEvents initialState
        [Event.orderBook Instrument.FUTURE 10100 10000 6]).nextMessageId ≤ 4294967296 ∧
    (sameOrderSet (runEvents initialState
        [Event.orderBook Instrument.FUTURE 10100 10000 6]).bid ∧
      sameOrderSet (runEvents initialState
        [Event.orderBook Instrument.FUTURE 10100 10000 6]).ask) :=
  ⟨by decide,
   registry_views_agree_C6 [Event.orderBook Instrument.FUTURE 10100 10000 6] (by decide)⟩

/-- C7: an error callback naming a nonzero order id registered on one side
removes that order from all three views of the side and leaves the other
side, the position and the id counter untouched; an error callback with id
zero, or naming an id registered on neither side, leaves the state
unchanged. -/
theorem error_removes_or_ignores_C7 (s : TraderState) (id : Nat) :
    ((id = 0 ∨ (mcontains s.bid.idToOrder id = false ∧ mcontains s.ask.idToOrder id = false)) →
      errorMessageHandler s id = s) ∧
    (invariant s → id ≠ 0 → ∀ o, mfind s.bid.idToOrder id = some o →
      mfind (errorMessageHandler s id).bid.idToOrder id = none ∧
      mfind (errorMessageHandler s id).bid.toOrder o.price = none ∧
      o.price ∉ (errorMessageHandler s id).bid.prices ∧
      (errorMessageHandler s id).ask = s.ask ∧
      (errorMessageHandler s id).position = s.position ∧
      (errorMessageHandler s id).nextMessageId = s.nextMessageId) ∧
    (invariant s → id ≠ 0 → ∀ o, mfind s.ask.idToOrder id = some o →
      mfind (errorMessageHandler s id).ask.idToOrder id = none ∧
      mfind (errorMessageHandler s id).ask.toOrder o.price = none ∧
      o.price ∉ (errorMessageHandler s id).ask.prices ∧
      (errorMessageHandler s id).bid = s.bid ∧
      (errorMessageHandler s id).position = s.position ∧
      (errorMessageHandler s id).nextMessageId = s.nextMessageId) := by
  refine ⟨?_, ?_, ?_⟩
  · intro h
    unfold errorMessageHandler
    rcases h with rfl | ⟨hb, ha⟩
    · rw [if_neg]
      intro hcond
      exact hcond.1 rfl
    · rw [if_neg]
      intro hcond
      rcases hcond.2 with h1 | h1
      · simp [ha] at h1
      · simp [hb] at h1
  · intro hinv hid o hfind
    have hcb : mcontains s.bid.idToOrder id = true := by
      simp [mcontains, hfind]
    have hstep : errorMessageHandler s id = { s with bid := s.bid.removeById id } := by
      unfold errorMessageHandler
      rw [if_pos ⟨hid, Or.inr hcb⟩]
      unfold orderStatusMessageHandler
      rw [if_pos hcb, if_pos rfl]
    rw [hstep, removeById_of_find hfind]
    obtain ⟨hps, hndt, hndi, hkpt, hkpi, hpc, hcp, hsmall, hvti, hvit⟩ := hinv.1
    refine ⟨mfind_merase_self hndi, mfind_merase_self hndt, ?_, rfl, rfl, rfl⟩
    intro hmem
    exact ((List.Nodup.mem_erase_iff (nodup_of_sorted hps)).1 hmem).1 rfl
  · intro hinv hid o hfind
    have hca : mcontains s.ask.idToOrder id = true := by
      simp [mcontains, hfind]
    have hnb : ¬mcontains s.bid.idToOrder id = true := by
      intro hbid
      rcases Option.isSome_iff_exists.1 (by simpa [mcontains] using hbid) with ⟨ob, hob⟩
      exact hinv.2.2.2.2 (id, ob) (mfind_mem hob) (id, o) (mfind_mem hfind) rfl
    have hstep : errorMessageHandler s id = { s with ask := s.ask.removeById id } := by
      unfold errorMessageHandler
      rw [if_pos ⟨hid, Or.inl hca⟩]
      unfold orderStatusMessageHandler
      rw [if_neg hnb, if_pos hca, if_pos rfl]
    rw [hstep, removeById_of_find hfind]
    obtain ⟨hps, hndt, hndi, hkpt, hkpi, hpc, hcp, hsmall, hvti, hvit⟩ := hinv.2.1
    refine ⟨mfind_merase_self hndi, mfind_merase_self hndt, ?_, rfl, rfl, rfl⟩
    intro hmem
    exact ((List.Nodup.mem_erase_iff (nodup_of_sorted hps)).1 hmem).1 rfl

/-- Witness for C7: an id-0 error leaves `wBook` unchanged; an error naming
registered bid 1 removes it from all three bid views. -/
theorem error_removes_or_ignores_C7_witness :
    errorMessageHandler wBook 0 = wBook ∧
    mfind (errorMessageHandler wBook 1).bid.idToOrder 1 = none ∧
    mfind (errorMessageHandler wBook 1).bid.toOrder 9900 = none ∧
    (9900 : Nat) ∉ (errorMessageHandler wBook 1).bid.prices ∧
    (errorMessageHandler wBook 1).ask = wBook.ask :=
  ⟨(error_removes_or_ignores_C7 wBook 0).1 (Or.inl rfl),
   ((error_removes_or_ignores_C7 wBook 1).2.1 (by decide) (by decide)
      { price := 9900, volume := 10, orderId := 1 } (by decide)).1,
   ((error_removes_or_ignores_C7 wBook 1).2.1 (by decide) (by decide)
      { price := 9900, volume := 10, orderId := 1 } (by decide)).2.1,
   ((error_removes_or_ignores_C7 wBook 1).2.1 (by decide) (by decide)
      { price := 9900, volume := 10, orderId := 1 } (by decide)).2.2.1,
   ((error_removes_or_ignores_C7 wBook 1).2.1 (by decide) (by decide)
      { price := 9900, volume := 10, orderId := 1 } (by decide)).2.2.2.1⟩

/-- C10: on a reference snapshot whose ask side is empty (`askPrices[0] = 0`)
the arbitrage-cancellation step emits a cancel for every registered buy order
with positive price (the `bestAskFut < price` test holds for all of them),
while an empty bid side (`bidPrices[0] = 0`) yields no sell-side arbitrage
cancellation at all. -/
theorem zero_ask_cancels_all_bids_C10 (s : TraderState) (bestBid : Nat) (budget : Int)
    (hinv : invariant s) :
    (∀ e ∈ s.bid.toOrder, 0 < Prod.fst e →
      Command.cancelOrder (Prod.snd e).orderId ∈
        (orderBookMessageHandler s Instrument.FUTURE 0 bestBid budget).2) ∧
    arbCancelAsks s.ask 0 = [] := by
  constructor
  · intro e he hpos
    rw [orderBook_eq_future]
    refine List.mem_append_left _ (List.mem_append_left _ (List.mem_append_left _ ?_))
    obtain ⟨hps, hndt, hndi, hkpt, hkpi, hpc, hcp, hsmall, hvti, hvit⟩ := hinv.1
    have hpmem : Prod.fst e ∈ s.bid.prices := hcp e he
    have hfilter : Prod.fst e ∈ s.bid.prices.filter (fun p => 0 < p) := by
      rw [List.mem_filter]
      exact ⟨hpmem, by simpa using hpos⟩
    have hmapped := List.mem_map_of_mem
      (fun p => Command.cancelOrder (orderIdAtPrice s.bid.toOrder p)) hfilter
    have hfind : mfind s.bid.toOrder (Prod.fst e) = some (Prod.snd e) :=
      mfind_eq_of_mem hndt (by simpa using he)
    have hids : orderIdAtPrice s.bid.toOrder (Prod.fst e) = (Prod.snd e).orderId := by
      unfold orderIdAtPrice
      rw [hfind]
    show Command.cancelOrder (Prod.snd e).orderId ∈
      (s.bid.prices.filter (fun p => (0 : Nat) < p)).map
        (fun p => Command.cancelOrder (orderIdAtPrice s.bid.toOrder p))
    refine List.mem_map.2 ⟨Prod.fst e, hfilter, ?_⟩
    show Command.cancelOrder (orderIdAtPrice s.bid.toOrder (Prod.fst e)) =
      Command.cancelOrder (Prod.snd e).orderId
    rw [hids]
  · unfold arbCancelAsks
    have hfil : s.ask.prices.filter (fun p => p < 0) = [] := by
      apply List.filter_eq_nil_iff.2
      intro a ha
      simp
    rw [hfil]
    rfl

/-- Witness for C10: in `wBook` the only resting buy (id 1 at 9900) is
cancelled by an empty-ask snapshot; the empty-bid side cancels nothing. -/
theorem zero_ask_cancels_all_bids_C10_witness :
    invariant wBook ∧
    ((∀ e ∈ wBook.bid.toOrder, 0 < Prod.fst e →
        Command.cancelOrder (Prod.snd e).orderId ∈
          (orderBookMessageHandler wBook Instrument.FUTURE 0 10000 5).2) ∧
      arbCancelAsks wBook.ask 0 = []) :=
  ⟨by decide, zero_ask_cancels_all_bids_C10 wBook 10000 5 (by decide)⟩

/-- Insert commands the bid loop emits on a gap-free full run (each sent id
is the 32-bit truncation of the running counter). -/
def insertCmdsBid (front : Nat) : Nat → List Nat → List Command
  | _, [] => []
  | nextId, off :: rest =>
    Command.insertOrder (wrap32 nextId) Side.BUY (ladderPriceBid front off) LOT_SIZE ::
      insertCmdsBid front (nextId + 1) rest

/-- Insert commands the ask loop emits on a gap-free full run. -/
def insertCmdsAsk (front : Nat) : Nat → List Nat → List Command
  | _, [] => []
  | nextId, off :: rest =>
    Command.insertOrder (wrap32 nextId) Side.SELL (ladderPriceAsk front off) LOT_SIZE ::
      insertCmdsAsk front (nextId + 1) rest

theorem insertLoopBid_full (front : Nat) : ∀ (offs : List Nat) (q : QuoteLoop),
    (offs.map (ladderPriceBid front)).Nodup →
    (∀ off ∈ offs, ladderPriceBid front off ∉ q.book.prices) →
    ((offs.length : Int) ≤ q.budget) →
    (10 * (offs.length : Int) ≤ q.maxSize) →
    (insertLoopBid front offs q).cmds = q.cmds ++ insertCmdsBid front q.nextId offs ∧
    (insertLoopBid front offs q).nextId = q.nextId + offs.length ∧
    (insertLoopBid front offs q).budget = q.budget - offs.length := by
  intro offs
  induction offs with
  | nil =>
    intro q hnd habs hbud hsize
    simp [insertLoopBid, insertCmdsBid]
  | cons off rest ih =>
    intro q hnd habs hbud hsize
    rw [List.length_cons] at hbud hsize
    have hbudpos : 0 < q.budget := by
      have : ((rest.length : Int) + 1) ≤ q.budget := by exact_mod_cast hbud
      omega
    have hsizepos : 0 < q.maxSize ∧ (10 : Int) ≤ q.maxSize := by
      have : 10 * ((rest.length : Int) + 1) ≤ q.maxSize := by exact_mod_cast hsize
      omega
    have hvol : (min (LOT_SIZE : Int) q.maxSize).toNat = LOT_SIZE := by
      have hmin : min (LOT_SIZE : Int) q.maxSize = (LOT_SIZE : Int) :=
        min_eq_left (by exact_mod_cast hsizepos.2)
      rw [hmin]
      rfl
    simp only [insertLoopBid]
    rw [if_pos ⟨hsizepos.1, hbudpos⟩,
      if_neg (habs off (List.mem_cons_self _ _))]
    rw [List.map_cons, List.nodup_cons] at hnd
    have habs2 : ∀ o2 ∈ rest, ladderPriceBid front o2 ∉
        (q.book.addOrder
          { price := ladderPriceBid front off
            volume := (min (LOT_SIZE : Int) q.maxSize).toNat
            orderId := q.nextId }).prices := by
      intro o2 ho2 hmem
      rcases mem_setInsert.1 hmem with h1 | h1
      · have h1b : ladderPriceBid front o2 = ladderPriceBid front off := h1
        exact hnd.1 (h1b ▸ List.mem_map_of_mem _ ho2)
      · exact habs o2 (List.mem_cons_of_mem _ ho2) h1
    have hbud2 : ((rest.length : Int)) ≤ q.budget - 1 := by
      have : ((rest.length : Int) + 1) ≤ q.budget := by exact_mod_cast hbud
      omega
    have hsize2 : 10 * ((rest.length : Int)) ≤
        q.maxSize - (((min (LOT_SIZE : Int) q.maxSize).toNat : Nat) : Int) := by
      rw [hvol]
      have h1 : 10 * ((rest.length : Int) + 1) ≤ q.maxSize := by exact_mod_cast hsize
      have h2 : ((LOT_SIZE : Nat) : Int) = 10 := rfl
      omega
    rcases ih
      { book := q.book.addOrder
          { price := ladderPriceBid front off,
            volume := (min (LOT_SIZE : Int) q.maxSize).toNat,
            orderId := wrap32 q.nextId }
        nextId := q.nextId + 1
        maxSize := q.maxSize - (((min (LOT_SIZE : Int) q.maxSize).toNat : Nat) : Int)
        budget := q.budget - 1
        cmds := q.cmds ++ [Command.insertOrder (wrap32 q.nextId) Side.BUY
          (ladderPriceBid front off) ((min (LOT_SIZE : Int) q.maxSize).toNat)] }
      hnd.2 habs2 hbud2 hsize2 with ⟨h1, h2, h3⟩
    refine ⟨?_, ?_, ?_⟩
    · rw [h1, hvol]
      simp [insertCmdsBid, List.append_assoc]
    · rw [h2]
      simp [List.length_cons]
      omega
    · rw [h3]
      simp [List.length_cons]
      omega

theorem insertLoopAsk_full (front : Nat) : ∀ (offs : List Nat) (q : QuoteLoop),
    (offs.map (ladderPriceAsk front)).Nodup →
    (∀ off ∈ offs, ladderPriceAsk front off ∉ q.book.prices) →
    ((offs.length : Int) ≤ q.budget) →
    (10 * (offs.length : Int) ≤ q.maxSize) →
    (insertLoopAsk front offs q).cmds = q.cmds ++ insertCmdsAsk front q.nextId offs ∧
    (insertLoopAsk front offs q).nextId = q.nextId + offs.length ∧
    (insertLoopAsk front offs q).budget = q.budget - offs.length := by
  intro offs
  induction offs with
  | nil =>
    intro q hnd habs hbud hsize
    simp [insertLoopAsk, insertCmdsAsk]
  | cons off rest ih =>
    intro q hnd habs hbud hsize
    rw [List.length_cons] at hbud hsize
    have hbudpos : 0 < q.budget := by
      have : ((rest.length : Int) + 1) ≤ q.budget := by exact_mod_cast hbud
      omega
    have hsizepos : 0 < q.maxSize ∧ (10 : Int) ≤ q.maxSize := by
      have : 10 * ((rest.length : Int) + 1) ≤ q.maxSize := by exact_mod_cast hsize
      omega
    have hvol : (min (LOT_SIZE : Int) q.maxSize).toNat = LOT_SIZE := by
      have hmin : min (LOT_SIZE : Int) q.maxSize = (LOT_SIZE : Int) :=
        min_eq_left (by exact_mod_cast hsizepos.2)
      rw [hmin]
      rfl
    simp only [insertLoopAsk]
    rw [if_pos ⟨hsizepos.1, hbudpos⟩,
      if_neg (habs off (List.mem_cons_self _ _))]
    rw [List.map_cons, List.nodup_cons] at hnd
    have habs2 : ∀ o2 ∈ rest, ladderPriceAsk front o2 ∉
        (q.book.addOrder
          { price := ladderPriceAsk front off
            volume := (min (LOT_SIZE : Int) q.maxSize).toNat
            orderId := q.nextId }).prices := by
      intro o2 ho2 hmem
      rcases mem_setInsert.1 hmem with h1 | h1
      · have h1b : ladderPriceAsk front o2 = ladderPriceAsk front off := h1
        exact hnd.1 (h1b ▸ List.mem_map_of_mem _ ho2)
      · exact habs o2 (List.mem_cons_of_mem _ ho2) h1
    have hbud2 : ((rest.length : Int)) ≤ q.budget - 1 := by
      have : ((rest.length : Int) + 1) ≤ q.budget := by exact_mod_cast hbud
      omega
    have hsize2 : 10 * ((rest.length : Int)) ≤
        q.maxSize - (((min (LOT_SIZE : Int) q.maxSize).toNat : Nat) : Int) := by
      rw [hvol]
      have h1 : 10 * ((rest.length : Int) + 1) ≤ q.maxSize := by exact_mod_cast hsize
      have h2 : ((LOT_SIZE : Nat) : Int) = 10 := rfl
      omega
    rcases ih
      { book := q.book.addOrder
          { price := ladderPriceAsk front off,
            volume := (min (LOT_SIZE : Int) q.maxSize).toNat,
            orderId := wrap32 q.nextId }
        nextId := q.nextId + 1
        maxSize := q.maxSize - (((min (LOT_SIZE : Int) q.maxSize).toNat : Nat) : Int)
        budget := q.budget - 1
        cmds := q.cmds ++ [Command.insertOrder (wrap32 q.nextId) Side.SELL
          (ladderPriceAsk front off) ((min (LOT_SIZE : Int) q.maxSize).toNat)] }
      hnd.2 habs2 hbud2 hsize2 with ⟨h1, h2, h3⟩
    refine ⟨?_, ?_, ?_⟩
    · rw [h1, hvol]
      simp [insertCmdsAsk, List.append_assoc]
    · rw [h2]
      simp [List.length_cons]
      omega
    · rw [h3]
      simp [List.length_cons]
      omega

/-- C4: from the empty registry with position 0, a reference snapshot with
best bid 10000 and best ask 10100 (ladder depth 3, tick 100, lot 10) makes
the engine insert exactly three buys at 9900, 9800, 9700 and three sells at
10200, 10300, 10400, each of volume 10, nearest-to-market level first,
provided the non-cancel message budget is at least 6. -/
theorem ladder_scenario_C4 (b : Int) (hb : 6 ≤ b) :
    (orderBookMessageHandler initialState Instrument.FUTURE 10100 10000 b).2 =
      [Command.insertOrder 1 Side.BUY 9900 10, Command.insertOrder 2 Side.BUY 9800 10,
       Command.insertOrder 3 Side.BUY 9700 10, Command.insertOrder 4 Side.SELL 10200 10,
       Command.insertOrder 5 Side.SELL 10300 10, Command.insertOrder 6 Side.SELL 10400 10] := by
  have hrange : List.range NUM_CLONES = [0, 1, 2] := rfl
  have hfrontB : frontBidPrice 10000 10100 initialState.position = 9900 := by decide
  have hbid := insertLoopBid_full 9900 [0, 1, 2]
    { book := initialState.bid
      nextId := initialState.nextMessageId
      maxSize := (bidScanResult initialState 10100 10000).2
      budget := b
      cmds := [] }
    (by decide) (fun off hoff => List.not_mem_nil _)
    (by
      show ((3 : Nat) : Int) ≤ b
      omega)
    (by
      show 10 * ((3 : Nat) : Int) ≤ (bidScanResult initialState 10100 10000).2
      decide)
  have hQb : bidQuoteLoopResult initialState 10100 10000 b =
      insertLoopBid 9900 [0, 1, 2]
        { book := initialState.bid
          nextId := initialState.nextMessageId
          maxSize := (bidScanResult initialState 10100 10000).2
          budget := b
          cmds := [] } := by
    unfold bidQuoteLoopResult
    rw [hfrontB, hrange]
  have hBcmds : (bidQuoteLoopResult initialState 10100 10000 b).cmds =
      insertCmdsBid 9900 1 [0, 1, 2] := by
    rw [hQb, hbid.1]
    rfl
  have hBnext : (bidQuoteLoopResult initialState 10100 10000 b).nextId = 4 := by
    rw [hQb, hbid.2.1]
    rfl
  have hBbud : (bidQuoteLoopResult initialState 10100 10000 b).budget = b - 3 := by
    rw [hQb, hbid.2.2]
    rfl
  have hpos0 : (10000 : Nat) ≠ 0 := by decide
  have hask0 : (10100 : Nat) ≠ 0 := by decide
  have hr1a : (adjustBidSide initialState 10100 10000 b).1 =
      { initialState with
          bid := (bidQuoteLoopResult initialState 10100 10000 b).book
          nextMessageId := (bidQuoteLoopResult initialState 10100 10000 b).nextId } := by
    rw [@adjustBidSide_pos initialState 10100 10000 b hpos0]
  have hr1c : (adjustBidSide initialState 10100 10000 b).2.1 =
      (bidScanResult initialState 10100 10000).1 ++
        (bidQuoteLoopResult initialState 10100 10000 b).cmds := by
    rw [@adjustBidSide_pos initialState 10100 10000 b hpos0]
  have hr1b : (adjustBidSide initialState 10100 10000 b).2.2 =
      (bidQuoteLoopResult initialState 10100 10000 b).budget := by
    rw [@adjustBidSide_pos initialState 10100 10000 b hpos0]
  have hask := insertLoopAsk_full 10200 [0, 1, 2]
    { book := ({ initialState with
        bid := (bidQuoteLoopResult initialState 10100 10000 b).book
        nextMessageId := 4 } : TraderState).ask
      nextId := ({ initialState with
        bid := (bidQuoteLoopResult initialState 10100 10000 b).book
        nextMessageId := 4 } : TraderState).nextMessageId
      maxSize := (askScanResult ({ initialState with
        bid := (bidQuoteLoopResult initialState 10100 10000 b).book
        nextMessageId := 4 } : TraderState) 10100 10000).2
      budget := b - 3
      cmds := [] }
    (by decide) (fun off hoff => List.not_mem_nil _)
    (by
      show ((3 : Nat) : Int) ≤ b - 3
      omega)
    (by
      show 10 * ((3 : Nat) : Int) ≤ (100 : Int)
      decide)
  have hfrontA : frontAskPrice 10000 10100 ({ initialState with
      bid := (bidQuoteLoopResult initialState 10100 10000 b).book
      nextMessageId := 4 } : TraderState).position = 10200 := by
    show frontAskPrice 10000 10100 (0 : Int) = 10200
    decide
  have hQa : askQuoteLoopResult ({ initialState with
      bid := (bidQuoteLoopResult initialState 10100 10000 b).book
      nextMessageId := 4 } : TraderState) 10100 10000 (b - 3) =
      insertLoopAsk 10200 [0, 1, 2]
        { book := ({ initialState with
            bid := (bidQuoteLoopResult initialState 10100 10000 b).book
            nextMessageId := 4 } : TraderState).ask
          nextId := ({ initialState with
            bid := (bidQuoteLoopResult initialState 10100 10000 b).book
            nextMessageId := 4 } : TraderState).nextMessageId
          maxSize := (askScanResult ({ initialState with
            bid := (bidQuoteLoopResult initialState 10100 10000 b).book
            nextMessageId := 4 } : TraderState) 10100 10000).2
          budget := b - 3
          cmds := [] } := by
    unfold askQuoteLoopResult
    rw [hfrontA, hrange]
  have hAcmds : (adjustAskSide ({ initialState with
      bid := (bidQuoteLoopResult initialState 10100 10000 b).book
      nextMessageId := 4 } : TraderState) 10100 10000 (b - 3)).2.1 =
      insertCmdsAsk 10200 4 [0, 1, 2] := by
    rw [@adjustAskSide_pos ({ initialState with
      bid := (bidQuoteLoopResult initialState 10100 10000 b).book
      nextMessageId := 4 } : TraderState) 10100 10000 (b - 3) hask0]
    show (askScanResult _ 10100 10000).1 ++ _ = _
    rw [hQa, hask.1]
    rfl
  rw [orderBook_eq_future, hr1c, hr1a, hr1b, hBcmds, hBnext, hBbud, hAcmds]
  rfl

/-- Witness for C4 at the minimal sufficient budget 6. -/
theorem ladder_scenario_C4_witness :
    (6 : Int) ≤ 6 ∧
    (orderBookMessageHandler initialState Instrument.FUTURE 10100 10000 6).2 =
      [Command.insertOrder 1 Side.BUY 9900 10, Command.insertOrder 2 Side.BUY 9800 10,
       Command.insertOrder 3 Side.BUY 9700 10, Command.insertOrder 4 Side.SELL 10200 10,
       Command.insertOrder 5 Side.SELL 10300 10, Command.insertOrder 6 Side.SELL 10400 10] :=
  ⟨by decide, ladder_scenario_C4 6 (by decide)⟩

theorem bidScanGo_all_inband (b : SideBook) (front : Nat) :
    ∀ (ps : List Nat) (cs : List Command) (m : Int),
    (∀ p ∈ ps, ¬(front < wrap32 p ∨
      wrap32 p ≤ wrap64 ((front : Int) - (NUM_CLONES * TICK_SIZE_IN_CENTS : Nat)))) →
    (bidScanGo b front ps cs m).1 = cs := by
  intro ps
  induction ps with
  | nil =>
    intro cs m h
    rfl
  | cons p rest ih =>
    intro cs m h
    rcases hf : mfind b.toOrder p with _ | o
    · simp only [bidScanGo, hf]
      exact ih cs _ (fun r hr => h r (List.mem_cons_of_mem _ hr))
    · simp only [bidScanGo, hf]
      rw [if_neg (h p (List.mem_cons_self _ _))]
      exact ih cs _ (fun r hr => h r (List.mem_cons_of_mem _ hr))

theorem askScanGo_all_inband (b : SideBook) (front : Nat) :
    ∀ (ps : List Nat) (cs : List Command) (m : Int),
    (∀ p ∈ ps, ¬(wrap32 p < front ∨
      wrap64 ((front : Int) + (NUM_CLONES * TICK_SIZE_IN_CENTS : Nat)) ≤ wrap32 p)) →
    (askScanGo b front ps cs m).1 = cs := by
  intro ps
  induction ps with
  | nil =>
    intro cs m h
    rfl
  | cons p rest ih =>
    intro cs m h
    rcases hf : mfind b.toOrder p with _ | o
    · simp only [askScanGo, hf]
      exact ih cs _ (fun r hr => h r (List.mem_cons_of_mem _ hr))
    · simp only [askScanGo, hf]
      rw [if_neg (h p (List.mem_cons_self _ _))]
      exact ih cs _ (fun r hr => h r (List.mem_cons_of_mem _ hr))

theorem insertLoopBid_noop (front : Nat) : ∀ (offs : List Nat) (q : QuoteLoop),
    (q.maxSize ≤ 0 ∨ q.budget ≤ 0 ∨ ∀ off ∈ offs, ladderPriceBid front off ∈ q.book.prices) →
    insertLoopBid front offs q = q := by
  intro offs
  induction offs with
  | nil =>
    intro q h
    rfl
  | cons off rest ih =>
    intro q h
    simp only [insertLoopBid]
    by_cases hcond : 0 < q.maxSize ∧ 0 < q.budget
    · rw [if_pos hcond]
      rcases h with h | h | h
      · exact absurd hcond.1 (by omega)
      · exact absurd hcond.2 (by omega)
      · rw [if_pos (h off (List.mem_cons_self _ _))]
        exact ih q (Or.inr (Or.inr (fun o2 ho2 => h o2 (List.mem_cons_of_mem _ ho2))))
    · rw [if_neg hcond]

theorem insertLoopAsk_noop (front : Nat) : ∀ (offs : List Nat) (q : QuoteLoop),
    (q.maxSize ≤ 0 ∨ q.budget ≤ 0 ∨ ∀ off ∈ offs, ladderPriceAsk front off ∈ q.book.prices) →
    insertLoopAsk front offs q = q := by
  intro offs
  induction offs with
  | nil =>
    intro q h
    rfl
  | cons off rest ih =>
    intro q h
    simp only [insertLoopAsk]
    by_cases hcond : 0 < q.maxSize ∧ 0 < q.budget
    · rw [if_pos hcond]
      rcases h with h | h | h
      · exact absurd hcond.1 (by omega)
      · exact absurd hcond.2 (by omega)
      · rw [if_pos (h off (List.mem_cons_self _ _))]
        exact ih q (Or.inr (Or.inr (fun o2 ho2 => h o2 (List.mem_cons_of_mem _ ho2))))
    · rw [if_neg hcond]

/-- A registry holding one stale buy order above the reference best ask. -/
def staleBook : TraderState :=
  { nextMessageId := 2
    position := 0
    bid := { prices := [10200]
             toOrder := [(10200, { price := 10200, volume := 10, orderId := 1 })]
             idToOrder := [(1, { price := 10200, volume := 10, orderId := 1 })] }
    ask := { prices := [], toOrder := [], idToOrder := [] } }

/-- C8 counterexample: the claim fails as stated.  With a stale bid at 10200
resting against snapshot 10000/10100, the first call only sends cancel
commands — the registry entry is removed only when the venue's status
callback arrives — so the second, identical call (registry, position and
budget unchanged) emits the same cancels again instead of nothing. -/
theorem replay_emits_commands_C8_counterexample :
    (orderBookMessageHandler staleBook Instrument.FUTURE 10100 10000 0).1 = staleBook ∧
    (orderBookMessageHandler
        (orderBookMessageHandler staleBook Instrument.FUTURE 10100 10000 0).1
        Instrument.FUTURE 10100 10000 0).2 =
      [Command.cancelOrder 1, Command.cancelOrder 1] ∧
    (orderBookMessageHandler
        (orderBookMessageHandler staleBook Instrument.FUTURE 10100 10000 0).1
        Instrument.FUTURE 10100 10000 0).2 ≠ [] := by
  refine ⟨by decide, by decide, by decide⟩

/-- C8 amended: replaying an identical snapshot emits no commands provided
the registry is already reconciled to it — every resting order lies inside
its side's current band and every ladder level is either occupied or blocked
by exhausted volume headroom.  (In general a replay re-issues cancels for
out-of-band orders that are still registered, and can issue inserts for
ladder gaps a previously exhausted budget left open.) -/
theorem replay_reconciled_silent_C8 (s : TraderState) (bestAsk bestBid : Nat) (budget : Int)
    (hinv : invariant s) (hbid0 : bestBid ≠ 0) (hask0 : bestAsk ≠ 0)
    (hbband : ∀ p ∈ s.bid.prices,
      ¬(frontBidPrice bestBid bestAsk s.position < wrap32 p ∨
        wrap32 p ≤ wrap64 ((frontBidPrice bestBid bestAsk s.position : Int) -
          (NUM_CLONES * TICK_SIZE_IN_CENTS : Nat))))
    (haband : ∀ p ∈ s.ask.prices,
      ¬(wrap32 p < frontAskPrice bestBid bestAsk s.position ∨
        wrap64 ((frontAskPrice bestBid bestAsk s.position : Int) +
          (NUM_CLONES * TICK_SIZE_IN_CENTS : Nat)) ≤ wrap32 p))
    (hbfull : (bidScanResult s bestAsk bestBid).2 ≤ 0 ∨
      ∀ off ∈ List.range NUM_CLONES,
        ladderPriceBid (frontBidPrice bestBid bestAsk s.position) off ∈ s.bid.prices)
    (hafull : (askScanResult s bestAsk bestBid).2 ≤ 0 ∨
      ∀ off ∈ List.range NUM_CLONES,
        ladderPriceAsk (frontAskPrice bestBid bestAsk s.position) off ∈ s.ask.prices) :
    orderBookMessageHandler s Instrument.FUTURE bestAsk bestBid budget = (s, []) := by
  obtain ⟨hpsB, hndtB, hndiB, hkptB, hkpiB, hpcB, hcpB, hsmallB, hvtiB, hvitB⟩ := hinv.1
  obtain ⟨hpsA, hndtA, hndiA, hkptA, hkpiA, hpcA, hcpA, hsmallA, hvtiA, hvitA⟩ := hinv.2.1
  have harbB : arbCancelBids s.bid bestAsk = [] := by
    unfold arbCancelBids
    rw [List.filter_eq_nil_iff.2 ?_]
    · rfl
    · intro p hp
      have h1 := hbband p hp
      have hw : wrap32 p = p := Nat.mod_eq_of_lt (hsmallB p hp)
      push_neg at h1
      have hple : p ≤ frontBidPrice bestBid bestAsk s.position := by
        rw [← hw]
        exact h1.1
      have hfb : frontBidPrice bestBid bestAsk s.position ≤ bestAsk := min_le_right _ _
      simp only [decide_eq_true_eq]
      omega
  have harbA : arbCancelAsks s.ask bestBid = [] := by
    unfold arbCancelAsks
    rw [List.filter_eq_nil_iff.2 ?_]
    · rfl
    · intro p hp
      have h1 := haband p hp
      have hw : wrap32 p = p := Nat.mod_eq_of_lt (hsmallA p hp)
      push_neg at h1
      have hple : frontAskPrice bestBid bestAsk s.position ≤ p := by
        rw [← hw]
        exact h1.1
      have hfb : bestBid ≤ frontAskPrice bestBid bestAsk s.position := le_max_right _ _
      simp only [decide_eq_true_eq]
      omega
  have hscanB : (bidScanResult s bestAsk bestBid).1 = [] := by
    unfold bidScanResult
    exact bidScanGo_all_inband s.bid _ s.bid.prices [] _ hbband
  have hscanA : (askScanResult s bestAsk bestBid).1 = [] := by
    unfold askScanResult
    exact askScanGo_all_inband s.ask _ s.ask.prices [] _ haband
  have hQb : bidQuoteLoopResult s bestAsk bestBid budget =
      { book := s.bid, nextId := s.nextMessageId,
        maxSize := (bidScanResult s bestAsk bestBid).2, budget := budget, cmds := [] } := by
    unfold bidQuoteLoopResult
    apply insertLoopBid_noop
    rcases hbfull with h | h
    · exact Or.inl h
    · exact Or.inr (Or.inr h)
  have hQa : askQuoteLoopResult s bestAsk bestBid budget =
      { book := s.ask, nextId := s.nextMessageId,
        maxSize := (askScanResult s bestAsk bestBid).2, budget := budget, cmds := [] } := by
    unfold askQuoteLoopResult
    apply insertLoopAsk_noop
    rcases hafull with h | h
    · exact Or.inl h
    · exact Or.inr (Or.inr h)
  have hadjB : adjustBidSide s bestAsk bestBid budget = (s, [], budget) := by
    rw [@adjustBidSide_pos s bestAsk bestBid budget hbid0, hQb, hscanB]
    rfl
  have hadjA : adjustAskSide s bestAsk bestBid budget = (s, [], budget) := by
    rw [@adjustAskSide_pos s bestAsk bestBid budget hask0, hQa, hscanA]
    rfl
  have h1 : (adjustBidSide s bestAsk bestBid budget).1 = s := by rw [hadjB]
  have h2 : (adjustBidSide s bestAsk bestBid budget).2.1 = [] := by rw [hadjB]
  have h3 : (adjustBidSide s bestAsk bestBid budget).2.2 = budget := by rw [hadjB]
  rw [orderBook_eq_future, h2, h1, h3, hadjA, harbB, harbA]
  rfl

/-- A registry already reconciled to the 10000/10100 snapshot: the full
three-level ladder on both sides. -/
def settledBook : TraderState :=
  { nextMessageId := 7
    position := 0
    bid := { prices := [9700, 9800, 9900]
             toOrder := [(9900, { price := 9900, volume := 10, orderId := 1 }),
                         (9800, { price := 9800, volume := 10, orderId := 2 }),
                         (9700, { price := 9700, volume := 10, orderId := 3 })]
             idToOrder := [(1, { price := 9900, volume := 10, orderId := 1 }),
                           (2, { price := 9800, volume := 10, orderId := 2 }),
                           (3, { price := 9700, volume := 10, orderId := 3 })] }
    ask := { prices := [10200, 10300, 10400]
             toOrder := [(10200, { price := 10200, volume := 10, orderId := 4 }),
                         (10300, { price := 10300, volume := 10, orderId := 5 }),
                         (10400, { price := 10400, volume := 10, orderId := 6 })]
             idToOrder := [(4, { price := 10200, volume := 10, orderId := 4 }),
                           (5, { price := 10300, volume := 10, orderId := 5 }),
                           (6, { price := 10400, volume := 10, orderId := 6 })] } }

/-- Witness for the amended C8: a fully reconciled ladder registry replayed
against its own snapshot emits nothing and is unchanged. -/
theorem replay_reconciled_silent_C8_witness :
    orderBookMessageHandler settledBook Instrument.FUTURE 10100 10000 6 = (settledBook, []) :=
  replay_reconciled_silent_C8 settledBook 10100 10000 6 (by decide) (by decide) (by decide)
    (by decide) (by decide) (by decide) (by decide)

theorem adjustBidSide_ask (s : TraderState) (bestAsk bestBid : Nat) (budget : Int) :
    (adjustBidSide s bestAsk bestBid budget).1.ask = s.ask := by
  unfold adjustBidSide
  by_cases h : bestBid ≠ 0
  · rw [if_pos h]
  · rw [if_neg h]

theorem adjustBidSide_position (s : TraderState) (bestAsk bestBid : Nat) (budget : Int) :
    (adjustBidSide s bestAsk bestBid budget).1.position = s.position := by
  unfold adjustBidSide
  by_cases h : bestBid ≠ 0
  · rw [if_pos h]
  · rw [if_neg h]

theorem adjustBidSide_bid_pos {s : TraderState} {bestAsk bestBid : Nat} {budget : Int}
    (h : bestBid ≠ 0) :
    (adjustBidSide s bestAsk bestBid budget).1.bid = (bidQuoteLoopResult s bestAsk bestBid budget).book := by
  unfold adjustBidSide
  rw [if_pos h]

theorem adjustBidSide_bid_zero (s : TraderState) (bestAsk : Nat) (budget : Int) :
    (adjustBidSide s bestAsk 0 budget).1.bid = s.bid := by
  unfold adjustBidSide
  rw [if_neg (by simp)]

theorem adjustAskSide_bid (s : TraderState) (bestAsk bestBid : Nat) (budget : Int) :
    (adjustAskSide s bestAsk bestBid budget).1.bid = s.bid := by
  unfold adjustAskSide
  by_cases h : bestAsk ≠ 0
  · rw [if_pos h]
  · rw [if_neg h]

theorem adjustAskSide_ask_pos {s : TraderState} {bestAsk bestBid : Nat} {budget : Int}
    (h : bestAsk ≠ 0) :
    (adjustAskSide s bestAsk bestBid budget).1.ask = (askQuoteLoopResult s bestAsk bestBid budget).book := by
  unfold adjustAskSide
  rw [if_pos h]

theorem mem_arbCancelBids {b : SideBook} (hc : b.consistent) {e : Nat × Order} {bestAsk : Nat}
    (he : e ∈ b.toOrder) (hp : bestAsk < (Prod.snd e).price) :
    Command.cancelOrder (Prod.snd e).orderId ∈ arbCancelBids b bestAsk := by
  obtain ⟨hps, hndt, hndi, hkpt, hkpi, hpc, hcp, hsmall, hvti, hvit⟩ := hc
  have hkey : (Prod.snd e).price = Prod.fst e := hkpt e he
  have hpm : Prod.fst e ∈ b.prices := hcp e he
  have hfb : Prod.fst e ∈ b.prices.filter (fun p => bestAsk < p) := by
    rw [List.mem_filter]
    refine ⟨hpm, ?_⟩
    simp only [decide_eq_true_eq]
    omega
  have hfind : mfind b.toOrder (Prod.fst e) = some (Prod.snd e) :=
    mfind_eq_of_mem hndt (by simpa using he)
  unfold arbCancelBids
  refine List.mem_map.2 ⟨Prod.fst e, hfb, ?_⟩
  show Command.cancelOrder (orderIdAtPrice b.toOrder (Prod.fst e)) = _
  unfold orderIdAtPrice
  rw [hfind]

theorem mem_arbCancelAsks {b : SideBook} (hc : b.consistent) {e : Nat × Order} {bestBid : Nat}
    (he : e ∈ b.toOrder) (hp : (Prod.snd e).price < bestBid) :
    Command.cancelOrder (Prod.snd e).orderId ∈ arbCancelAsks b bestBid := by
  obtain ⟨hps, hndt, hndi, hkpt, hkpi, hpc, hcp, hsmall, hvti, hvit⟩ := hc
  have hkey : (Prod.snd e).price = Prod.fst e := hkpt e he
  have hpm : Prod.fst e ∈ b.prices := hcp e he
  have hfb : Prod.fst e ∈ b.prices.filter (fun p => p < bestBid) := by
    rw [List.mem_filter]
    refine ⟨hpm, ?_⟩
    simp only [decide_eq_true_eq]
    omega
  have hfind : mfind b.toOrder (Prod.fst e) = some (Prod.snd e) :=
    mfind_eq_of_mem hndt (by simpa using he)
  unfold arbCancelAsks
  refine List.mem_map.2 ⟨Prod.fst e, hfb, ?_⟩
  show Command.cancelOrder (orderIdAtPrice b.toOrder (Prod.fst e)) = _
  unfold orderIdAtPrice
  rw [hfind]

theorem ladderPriceBid_eq {front off : Nat} (hoff : off ≤ 2) (h300 : 300 ≤ front)
    (h32 : front < 4294967296) : ladderPriceBid front off = front - off * 100 := by
  unfold ladderPriceBid wrap32 wrap64 TICK_SIZE_IN_CENTS
  omega

theorem ladderPriceAsk_eq {front off : Nat} (hoff : off ≤ 2)
    (h32 : front + 300 ≤ 4294967296) : ladderPriceAsk front off = front + off * 100 := by
  unfold ladderPriceAsk wrap32 wrap64 TICK_SIZE_IN_CENTS
  omega

/-- C2 counterexample: the claim fails as stated.  A buy order resting at
10200 when the snapshot reports best ask 10100 is sent a cancel but stays in
the buy-side registry after the update completes (only a later status or
error callback removes it), so the post-reconciliation registry still holds
a buy priced above the freshest reference best ask. -/
theorem stale_bid_remains_C2_counterexample :
    ∃ e ∈ (orderBookMessageHandler staleBook Instrument.FUTURE 10100 10000 0).1.bid.toOrder,
      10100 < (Prod.snd e).price := by
  decide

/-- C2 amended: after an order-book update the buy registry may still hold
orders priced above the freshest best ask, but every such order received a
cancel command during that same update, and no order the update itself
inserted violates the bound; symmetrically for sells below the best bid.
The hypotheses keep the reference prices in the regime where no machine-width
wrap-around occurs: nonzero best ask below 2^32, the front bid at least one
ladder span above zero, and the front ask one ladder span below 2^32. -/
theorem crossed_orders_cancelled_C2 (s : TraderState) (bestAsk bestBid : Nat) (budget : Int)
    (hinv : invariant s) (hask0 : bestAsk ≠ 0) (ha32 : bestAsk < 4294967296)
    (hfb : NUM_CLONES * TICK_SIZE_IN_CENTS ≤ frontBidPrice bestBid bestAsk s.position)
    (hfa : frontAskPrice bestBid bestAsk s.position + NUM_CLONES * TICK_SIZE_IN_CENTS ≤ 4294967296) :
    (∀ e ∈ (orderBookMessageHandler s Instrument.FUTURE bestAsk bestBid budget).1.bid.toOrder,
      bestAsk < (Prod.snd e).price →
      Command.cancelOrder (Prod.snd e).orderId ∈
        (orderBookMessageHandler s Instrument.FUTURE bestAsk bestBid budget).2) ∧
    (∀ e ∈ (orderBookMessageHandler s Instrument.FUTURE bestAsk bestBid budget).1.ask.toOrder,
      (Prod.snd e).price < bestBid →
      Command.cancelOrder (Prod.snd e).orderId ∈
        (orderBookMessageHandler s Instrument.FUTURE bestAsk bestBid budget).2) := by
  have hpostbid : (orderBookMessageHandler s Instrument.FUTURE bestAsk bestBid budget).1.bid =
      (adjustBidSide s bestAsk bestBid budget).1.bid := by
    rw [orderBook_eq_future]
    exact adjustAskSide_bid _ _ _ _
  have hpostask : (orderBookMessageHandler s Instrument.FUTURE bestAsk bestBid budget).1.ask =
      (askQuoteLoopResult (adjustBidSide s bestAsk bestBid budget).1 bestAsk bestBid
        (adjustBidSide s bestAsk bestBid budget).2.2).book := by
    rw [orderBook_eq_future]
    exact adjustAskSide_ask_pos hask0
  constructor
  · intro e he hp
    rw [hpostbid] at he
    have hold : e ∈ s.bid.toOrder := by
      by_cases hb0 : bestBid = 0
      · subst hb0
        rw [adjustBidSide_bid_zero] at he
        exact he
      · rw [adjustBidSide_bid_pos hb0] at he
        unfold bidQuoteLoopResult at he
        rcases insertLoopBid_toOrder_sub (frontBidPrice bestBid bestAsk s.position)
          (List.range NUM_CLONES)
          { book := s.bid, nextId := s.nextMessageId,
            maxSize := (bidScanResult s bestAsk bestBid).2, budget := budget, cmds := [] }
          e he with h1 | ⟨⟨off, hoffmem, hoffeq⟩, hpe⟩
        · exact h1
        · exfalso
          have hoff2 : off ≤ 2 := by
            have h3 : off < 3 := List.mem_range.1 hoffmem
            omega
          have h300 : 300 ≤ frontBidPrice bestBid bestAsk s.position := hfb
          have hle32 : frontBidPrice bestBid bestAsk s.position < 4294967296 :=
            Nat.lt_of_le_of_lt (min_le_right _ _) ha32
          have hleq : ladderPriceBid (frontBidPrice bestBid bestAsk s.position) off =
              frontBidPrice bestBid bestAsk s.position - off * 100 :=
            ladderPriceBid_eq hoff2 h300 hle32
          have hfble : frontBidPrice bestBid bestAsk s.position ≤ bestAsk := min_le_right _ _
          rw [hleq] at hoffeq
          omega
    rw [orderBook_eq_future]
    exact List.mem_append_left _ (List.mem_append_left _
      (List.mem_append_left _ (mem_arbCancelBids hinv.1 hold hp)))
  · intro e he hp
    rw [hpostask] at he
    have hold : e ∈ s.ask.toOrder := by
      unfold askQuoteLoopResult at he
      rw [adjustBidSide_ask, adjustBidSide_position] at he
      rcases insertLoopAsk_toOrder_sub (frontAskPrice bestBid bestAsk s.position)
        (List.range NUM_CLONES)
        { book := s.ask, nextId := (adjustBidSide s bestAsk bestBid budget).1.nextMessageId,
          maxSize := (askScanResult (adjustBidSide s bestAsk bestBid budget).1 bestAsk bestBid).2,
          budget := (adjustBidSide s bestAsk bestBid budget).2.2, cmds := [] }
        e he with h1 | ⟨⟨off, hoffmem, hoffeq⟩, hpe⟩
      · exact h1
      · exfalso
        have hoff2 : off ≤ 2 := by
          have h3 : off < 3 := List.mem_range.1 hoffmem
          omega
        have hleq : ladderPriceAsk (frontAskPrice bestBid bestAsk s.position) off =
            frontAskPrice bestBid bestAsk s.position + off * 100 :=
          ladderPriceAsk_eq hoff2 hfa
        have hfble : bestBid ≤ frontAskPrice bestBid bestAsk s.position := le_max_right _ _
        rw [hleq] at hoffeq
        omega
    rw [orderBook_eq_future]
    exact List.mem_append_left _ (List.mem_append_left _
      (List.mem_append_right _ (mem_arbCancelAsks hinv.2.1 hold hp)))

/-- Witness for the amended C2: with the stale 10200 bid of `staleBook` and
snapshot 10000/10100, the surviving out-of-band bid has its cancel in the
update's command stream. -/
theorem crossed_orders_cancelled_C2_witness :
    (∀ e ∈ (orderBookMessageHandler staleBook Instrument.FUTURE 10100 10000 0).1.bid.toOrder,
      10100 < (Prod.snd e).price →
      Command.cancelOrder (Prod.snd e).orderId ∈
        (orderBookMessageHandler staleBook Instrument.FUTURE 10100 10000 0).2) ∧
    (∀ e ∈ (orderBookMessageHandler staleBook Instrument.FUTURE 10100 10000 0).1.ask.toOrder,
      (Prod.snd e).price < 10000 →
      Command.cancelOrder (Prod.snd e).orderId ∈
        (orderBookMessageHandler staleBook Instrument.FUTURE 10100 10000 0).2) :=
  crossed_orders_cancelled_C2 staleBook 10100 10000 0 (by decide) (by decide) (by decide)
    (by decide) (by decide)

end RTG
